import Mathlib

/-!
Voltage secure channel: wire format, handshake and client.

A shallow embedding of the Go packages `internal/protocol`, `internal/crypto`,
`internal/handshake` and `pkg/client`.

Modelling conventions.

* `[]byte` is `List UInt8`; a nil slice and an empty slice are both `[]`.
* `int64` values are integers, wrapped by `wrapInt64` after arithmetic;
  `uint64`/`uint32` conversions are written with an explicit `% 2 ^ w`.
  Go's `int` is 64 bits wide (amd64/arm64), so the length arithmetic of
  `UnmarshalMessage`, bounded by `2 ^ 32 + 46`, never wraps.
* A run-time panic (index or slice bound out of range, nil dereference) is the
  outcome `Outcome.panic`.  A slice's capacity is taken to be its length, the
  least it can be, so every bound that Go checks against the capacity is
  checked here against the length.
* `time.Now().Unix()` is the explicit argument `now`; the bytes delivered by
  `crypto/rand.Reader` are the explicit argument `rnd`, and the key that
  `curve.GenerateKey` draws is the explicit argument `generated`.
* A message argument is a value: the nil `*Message` is not modelled.
* The standard-library and zstd primitives (SHA-256, HMAC-SHA256, AES-GCM,
  P-256 ECDH, zstd) are the fields of `Crypto`; what a theorem needs of them is
  a hypothesis of that theorem.
* The zstd encoder and decoder a client points to carry one bit of state,
  whether `Close` was called on them: a closed decoder fails in `DecodeAll`,
  a closed encoder still encodes.
-/

namespace Voltage

/-- A Go byte slice. -/
abbrev Bytes := List UInt8

/-- Go `error` values of the repository: the sentinels of
`protocol/constants.go`, `fmt.Errorf` without `%w` (format string and
arguments), `fmt.Errorf` with `%w` (text before the colon and the wrapped
error), and errors made by a library. -/
inductive Err where
  | ErrInvalidMessage
  | ErrInvalidSignature
  | ErrInvalidTimestamp
  | ErrEncryptionFailed
  | ErrDecryptionFailed
  | ErrNoSessionKey
  | ErrNotConnected
  | ErrHandshakeFailed
  | errorf (format : String) (args : List Nat)
  | wrap (text : String) (inner : Err)
  | lib (origin : String)
deriving DecidableEq, Repr

/-- The result of running a Go function: a value, a returned error, or a
run-time panic. -/
inductive Outcome (α : Type) where
  | ok (a : α)
  | error (e : Err)
  | panic
deriving DecidableEq, Repr

/-- Sequencing: an error or a panic ends the function. -/
def Outcome.bind {α β : Type} (x : Outcome α) (f : α → Outcome β) : Outcome β :=
  match x with
  | .ok a => f a
  | .error e => .error e
  | .panic => .panic

instance : Monad Outcome where
  pure := Outcome.ok
  bind := Outcome.bind

/-- Go's `fmt.Errorf("...: %w", err)` applied to the error of a callee. -/
def Outcome.wrapErr {α : Type} (text : String) (x : Outcome α) : Outcome α :=
  match x with
  | .ok a => .ok a
  | .error e => .error (.wrap text e)
  | .panic => .panic

/-! ## protocol/constants.go -/

def ProtocolVersion : UInt8 := 0x01
def NonceSize : Nat := 12
def TagSize : Nat := 16
def HMACSize : Nat := 32
def KeySize : Nat := 32
def TimestampSize : Nat := 8
def MsgTypeHandshake : UInt8 := 0x01
def MsgTypeData : UInt8 := 0x02
def MsgTypeHeartbeat : UInt8 := 0x03
def MsgTypeError : UInt8 := 0x04
def MsgTypeAck : UInt8 := 0x05

/-! ## Machine integers and slices -/

/-- The value of an integer as an `int64` (two's complement wrap-around). -/
def wrapInt64 (x : Int) : Int := (x + 2 ^ 63) % 2 ^ 64 - 2 ^ 63

/-- Go `uint64(x)` for an `int64` x. -/
def toUint64 (x : Int) : Nat := (x % 2 ^ 64).toNat

/-- Go `int64(u)` for a `uint64` u. -/
def toInt64 (u : Nat) : Int := wrapInt64 (u : Int)

/-- Go `byte(v)`: the low eight bits. -/
def byte (v : Nat) : UInt8 := UInt8.ofNat (v % 256)

/-- The eight bytes `binary.BigEndian.PutUint64` stores for v:
`byte(v >> 56), byte(v >> 48), ..., byte(v)`. -/
def bigEndian64 (v : Nat) : Bytes :=
  [byte (v / 2 ^ 56), byte (v / 2 ^ 48), byte (v / 2 ^ 40), byte (v / 2 ^ 32),
   byte (v / 2 ^ 24), byte (v / 2 ^ 16), byte (v / 2 ^ 8), byte v]

/-- The four bytes `binary.BigEndian.PutUint32` stores for v. -/
def bigEndian32 (v : Nat) : Bytes :=
  [byte (v / 2 ^ 24), byte (v / 2 ^ 16), byte (v / 2 ^ 8), byte v]

/-- Go `make([]byte, n)`. -/
def zeros (n : Nat) : Bytes := List.replicate n 0

/-- Go `copy(dst, src)`: the contents of dst afterwards; the first
`min(len(dst), len(src))` bytes are overwritten. -/
def copy (dst src : Bytes) : Bytes := src.take dst.length ++ dst.drop src.length

/-- Go `b[i]` as a value; panics when i is out of range. -/
def index (b : Bytes) (i : Nat) : Outcome UInt8 :=
  match b.get? i with
  | some v => .ok v
  | none => .panic

/-- Go `b[lo:]`; panics when lo exceeds the length. -/
def sliceFrom (b : Bytes) (lo : Nat) : Outcome Bytes :=
  if lo ≤ b.length then .ok (b.drop lo) else .panic

/-- Go `b[lo:hi]`; panics unless `lo ≤ hi ≤ len(b)`. -/
def slice (b : Bytes) (lo hi : Nat) : Outcome Bytes :=
  if lo ≤ hi ∧ hi ≤ b.length then .ok ((b.drop lo).take (hi - lo)) else .panic

/-- Go `b[:hi]`; panics when hi exceeds the length. -/
def sliceTo (b : Bytes) (hi : Nat) : Outcome Bytes :=
  if hi ≤ b.length then .ok (b.take hi) else .panic

/-- Go `buf[i] = v`: the contents of buf afterwards; panics when i is out of
range. -/
def store (buf : Bytes) (i : Nat) (v : UInt8) : Outcome Bytes :=
  if i < buf.length then .ok (buf.set i v) else .panic

/-- Go `copy(buf[off:], src)`: the contents of buf afterwards. -/
def copyAt (buf : Bytes) (off : Nat) (src : Bytes) : Outcome Bytes := do
  let tail ← sliceFrom buf off
  pure (buf.take off ++ copy tail src)

/-- Go `binary.BigEndian.PutUint64(buf[off:], v)`: the contents of buf
afterwards; panics when fewer than eight bytes follow off. -/
def putUint64At (buf : Bytes) (off : Nat) (v : Nat) : Outcome Bytes := do
  let tail ← sliceFrom buf off
  if tail.length < 8 then .panic else
  pure (buf.take off ++ copy tail (bigEndian64 (v % 2 ^ 64)))

/-- Go `binary.BigEndian.PutUint32(buf[off:], v)`. -/
def putUint32At (buf : Bytes) (off : Nat) (v : Nat) : Outcome Bytes := do
  let tail ← sliceFrom buf off
  if tail.length < 4 then .panic else
  pure (buf.take off ++ copy tail (bigEndian32 (v % 2 ^ 32)))

/-- Go `binary.BigEndian.Uint64(b)`: panics when b has fewer than eight
bytes; otherwise `b[7] | b[6]<<8 | ... | b[0]<<56`. -/
def uint64Of (b : Bytes) : Outcome Nat :=
  match b with
  | b0 :: b1 :: b2 :: b3 :: b4 :: b5 :: b6 :: b7 :: _ =>
    .ok (b0.toNat * 2 ^ 56 + b1.toNat * 2 ^ 48 + b2.toNat * 2 ^ 40 + b3.toNat * 2 ^ 32
      + b4.toNat * 2 ^ 24 + b5.toNat * 2 ^ 16 + b6.toNat * 2 ^ 8 + b7.toNat)
  | _ => .panic

/-- Go `binary.BigEndian.Uint32(b)`: panics when b has fewer than four bytes. -/
def uint32Of (b : Bytes) : Outcome Nat :=
  match b with
  | b0 :: b1 :: b2 :: b3 :: _ =>
    .ok (b0.toNat * 2 ^ 24 + b1.toNat * 2 ^ 16 + b2.toNat * 2 ^ 8 + b3.toNat)
  | _ => .panic

/-! ## protocol/message.go -/

/-- The Go struct `protocol.Message`; its field `Type` is written `Type_`. -/
structure Message where
  Version : UInt8
  Type_ : UInt8
  Timestamp : Int
  Payload : Bytes
  HMAC : Bytes
deriving DecidableEq, Repr

/-- `NewMessage(msgType, payload)` at clock reading now; the HMAC field is
left nil. -/
def NewMessage (now : Int) (msgType : UInt8) (payload : Bytes) : Message :=
  { Version := ProtocolVersion, Type_ := msgType, Timestamp := now,
    Payload := payload, HMAC := [] }

/-- `(*Message).Marshal`. -/
def Message.Marshal (m : Message) : Outcome Bytes := do
  let size := 1 + 1 + TimestampSize + 4 + m.Payload.length + HMACSize
  let buf := zeros size
  let offset := 0
  let buf ← store buf offset m.Version
  let offset := offset + 1
  let buf ← store buf offset m.Type_
  let offset := offset + 1
  let buf ← putUint64At buf offset (toUint64 m.Timestamp)
  let offset := offset + TimestampSize
  let buf ← putUint32At buf offset (m.Payload.length % 2 ^ 32)
  let offset := offset + 4
  let buf ← copyAt buf offset m.Payload
  let offset := offset + m.Payload.length
  let buf ← copyAt buf offset m.HMAC
  pure buf

/-- `UnmarshalMessage(data)`. -/
def UnmarshalMessage (data : Bytes) : Outcome Message := do
  if data.length < 1 + 1 + TimestampSize + 4 + HMACSize then
    .error .ErrInvalidMessage
  else
  let offset := 0
  let version ← index data offset
  let offset := offset + 1
  let type ← index data offset
  let offset := offset + 1
  let tsBytes ← sliceFrom data offset
  let ts ← uint64Of tsBytes
  let timestamp := toInt64 ts
  let offset := offset + TimestampSize
  let lenBytes ← sliceFrom data offset
  let payloadLen ← uint32Of lenBytes
  let offset := offset + 4
  if data.length < offset + payloadLen + HMACSize then
    .error .ErrInvalidMessage
  else
  let payloadSrc ← slice data offset (offset + payloadLen)
  let payload := copy (zeros payloadLen) payloadSrc
  let offset := offset + payloadLen
  let macSrc ← sliceFrom data offset
  let mac := copy (zeros HMACSize) macSrc
  pure { Version := version, Type_ := type, Timestamp := timestamp,
         Payload := payload, HMAC := mac }

/-- `(*Message).IsValid`. -/
def Message.IsValid (m : Message) : Bool :=
  m.Version == ProtocolVersion &&
    decide (m.Type_ ≥ MsgTypeHandshake) &&
    decide (m.Type_ ≤ MsgTypeAck) &&
    (m.HMAC.length == HMACSize)

/-- `(*Message).GetAge` at clock reading now: an `int64` subtraction. -/
def Message.GetAge (m : Message) (now : Int) : Int := wrapInt64 (now - m.Timestamp)

/-! ## The library primitives -/

/-- The primitives the repository takes from `crypto/ecdh`, `crypto/sha256`,
`crypto/hmac`, `crypto/cipher` (AES-GCM with an empty additional data) and
`klauspost/compress/zstd`.  An absent result stands for the error the library
returns. -/
structure Crypto where
  /-- `*ecdh.PrivateKey` on P-256. -/
  PrivateKey : Type
  /-- `*ecdh.PublicKey` on P-256. -/
  PublicKey : Type
  /-- `(*ecdh.PrivateKey).PublicKey`. -/
  publicKey : PrivateKey → PublicKey
  /-- `(*ecdh.PublicKey).Bytes`. -/
  publicKeyBytes : PublicKey → Bytes
  /-- `ecdh.P256().NewPublicKey`. -/
  newPublicKey : Bytes → Option PublicKey
  /-- `ecdh.P256().NewPrivateKey`. -/
  newPrivateKey : Bytes → Option PrivateKey
  /-- `(*ecdh.PrivateKey).ECDH`. -/
  ecdh : PrivateKey → PublicKey → Option Bytes
  /-- `sha256.Sum256`. -/
  sha256 : Bytes → Bytes
  /-- HMAC-SHA256 of a message under a key: `hmac.New(sha256.New, key)`, the
  message written, `Sum(nil)`. -/
  hmacSha256 : Bytes → Bytes → Bytes
  /-- `gcm.Seal(nil, nonce, plaintext, nil)` under a key: ciphertext and tag. -/
  gcmSeal : Bytes → Bytes → Bytes → Bytes
  /-- `gcm.Open(nil, nonce, ciphertext, nil)` under a key. -/
  gcmOpen : Bytes → Bytes → Bytes → Option Bytes
  /-- `(*zstd.Encoder).EncodeAll(data, nil)`. -/
  zstdEncodeAll : Bytes → Bytes
  /-- `(*zstd.Decoder).DecodeAll(data, nil)` of a decoder that is not closed. -/
  zstdDecodeAll : Bytes → Option Bytes

/-- Go `[]byte(s)` for an ASCII string literal s. -/
def bytesOf (s : String) : Bytes := s.toList.map (fun ch => UInt8.ofNat ch.toNat)

/-- Dereferencing a pointer: nil panics. -/
def deref {α : Type} (p : Option α) : Outcome α :=
  match p with
  | some a => .ok a
  | none => .panic

/-- The result of a library call that may return an error. -/
def orLibErr {α : Type} (origin : String) (r : Option α) : Outcome α :=
  match r with
  | some a => .ok a
  | none => .error (.lib origin)

/-! ## crypto/keys.go -/

/-- The Go struct `crypto.KeyManager`. -/
structure KeyManager (P : Crypto) where
  privateKey : P.PrivateKey
  publicKey : P.PublicKey

/-- `GenerateKeyPair`; generated is what `curve.GenerateKey(rand.Reader)`
yields. -/
def GenerateKeyPair (P : Crypto) (generated : Option P.PrivateKey) :
    Outcome (P.PrivateKey × P.PublicKey) := do
  let privateKey ← (orLibErr "crypto/ecdh" generated).wrapErr "failed to generate private key"
  let publicKey := P.publicKey privateKey
  pure (privateKey, publicKey)

/-- `NewKeyManager`. -/
def NewKeyManager (P : Crypto) (generated : Option P.PrivateKey) : Outcome (KeyManager P) := do
  let (privateKey, publicKey) ← GenerateKeyPair P generated
  pure { privateKey := privateKey, publicKey := publicKey }

/-- `NewKeyManagerFromPrivate`. -/
def NewKeyManagerFromPrivate (P : Crypto) (privateKey : P.PrivateKey) : KeyManager P :=
  { privateKey := privateKey, publicKey := P.publicKey privateKey }

/-- `(*KeyManager).GetPublicKeyBytes`. -/
def KeyManager.GetPublicKeyBytes {P : Crypto} (km : KeyManager P) : Bytes :=
  P.publicKeyBytes km.publicKey

/-- `(*KeyManager).DeriveSharedSecret`. -/
def KeyManager.DeriveSharedSecret {P : Crypto} (km : KeyManager P)
    (remotePublicKey : P.PublicKey) : Outcome Bytes :=
  (orLibErr "crypto/ecdh" (P.ecdh km.privateKey remotePublicKey)).wrapErr
    "failed to derive shared secret"

/-- `ParsePublicKey`. -/
def ParsePublicKey (P : Crypto) (data : Bytes) : Outcome P.PublicKey :=
  (orLibErr "crypto/ecdh" (P.newPublicKey data)).wrapErr "failed to parse public key"

/-! ## crypto/auth.go -/

/-- The Go struct `crypto.Authenticator`. -/
structure Authenticator where
  key : Bytes
deriving DecidableEq, Repr

/-- `NewAuthenticator`. -/
def NewAuthenticator (key : Bytes) : Authenticator := { key := key }

/-- `(*Authenticator).GenerateHMAC`: HMAC-SHA256 under the key of the bytes
written, `[Version, Type]`, the timestamp as eight big-endian bytes, the
payload. -/
def Authenticator.GenerateHMAC (P : Crypto) (a : Authenticator) (msg : Message) : Bytes :=
  P.hmacSha256 a.key
    ([msg.Version, msg.Type_] ++ bigEndian64 (toUint64 msg.Timestamp) ++ msg.Payload)

/-- `hmac.Equal`: true exactly when the two slices have the same length and
the same bytes. -/
def hmacEqual (mac1 mac2 : Bytes) : Bool := decide (mac1 = mac2)

/-- `(*Authenticator).VerifyHMAC`. -/
def Authenticator.VerifyHMAC (P : Crypto) (a : Authenticator) (msg : Message) : Bool :=
  let expected := a.GenerateHMAC P msg
  hmacEqual expected msg.HMAC

/-- `DeriveKey`. -/
def DeriveKey (P : Crypto) (sharedSecret info : Bytes) : Bytes :=
  P.hmacSha256 sharedSecret info

/-! ## crypto/encryption.go -/

/-- The Go struct `crypto.Encryptor`. -/
structure Encryptor where
  key : Bytes
deriving DecidableEq, Repr

/-- `NewEncryptor`. -/
def NewEncryptor (key : Bytes) : Outcome Encryptor :=
  if key.length ≠ KeySize then
    .error (.errorf "invalid key size: expected %d, got %d" [KeySize, key.length])
  else .ok { key := key }

/-- `aes.NewCipher(key)`: an error unless the key has 16, 24 or 32 bytes.
`cipher.NewGCM` of an AES block returns no error. -/
def aesNewCipher (key : Bytes) : Outcome Unit :=
  if key.length = 16 ∨ key.length = 24 ∨ key.length = 32 then .ok ()
  else .error (.lib "crypto/aes")

/-- `(*Encryptor).Encrypt`; the receiver is a pointer, dereferenced by the first
statement.  The argument rnd is what `rand.Reader` has to deliver, and
`io.ReadFull` fails when that is less than the nonce. -/
def Encryptor.Encrypt (P : Crypto) (e : Option Encryptor) (rnd : Bytes) (data : Bytes) :
    Outcome Bytes := do
  let self ← deref e
  (aesNewCipher self.key).wrapErr "failed to create cipher"
  if rnd.length < NonceSize then
    .error (.wrap "failed to generate nonce" (.lib "io"))
  else
  let nonce := rnd.take NonceSize
  let ciphertext := nonce ++ P.gcmSeal self.key nonce data
  pure ciphertext

/-- `(*Encryptor).Decrypt`; the receiver is a pointer, first dereferenced after
the length check. -/
def Encryptor.Decrypt (P : Crypto) (e : Option Encryptor) (data : Bytes) : Outcome Bytes := do
  if data.length < NonceSize then
    .error .ErrInvalidMessage
  else
  let self ← deref e
  (aesNewCipher self.key).wrapErr "failed to create cipher"
  let nonce ← sliceTo data NonceSize
  let ciphertext ← sliceFrom data NonceSize
  match P.gcmOpen self.key nonce ciphertext with
  | none => .error .ErrDecryptionFailed
  | some plaintext => pure plaintext

/-! ## handshake/manager.go -/

/-- The Go struct `handshake.Manager`. -/
structure Manager (P : Crypto) where
  keyManager : KeyManager P
  auth : Authenticator

/-- `NewManager`: the handshake MAC key is SHA-256 of "voltage-handshake". -/
def NewManager (P : Crypto) (keyManager : KeyManager P) : Manager P :=
  let tempKey := P.sha256 (bytesOf "voltage-handshake")
  let auth := NewAuthenticator tempKey
  { keyManager := keyManager, auth := auth }

/-- `(*Manager).CreateHandshakeMessage`. -/
def Manager.CreateHandshakeMessage {P : Crypto} (m : Manager P) (now : Int) :
    Outcome Message := do
  let publicKeyBytes := m.keyManager.GetPublicKeyBytes
  let msg := NewMessage now MsgTypeHandshake publicKeyBytes
  let msg := { msg with HMAC := m.auth.GenerateHMAC P msg }
  pure msg

/-- `(*Manager).ProcessHandshakeMessage`. -/
def Manager.ProcessHandshakeMessage {P : Crypto} (m : Manager P) (msg : Message) :
    Outcome Bytes := do
  if msg.Type_ ≠ MsgTypeHandshake then
    .error (.errorf "expected handshake message, got type %d" [msg.Type_.toNat])
  else
  if !(m.auth.VerifyHMAC P msg) then
    .error .ErrInvalidSignature
  else
  let remotePublicKey ← (ParsePublicKey P msg.Payload).wrapErr
    "failed to parse remote public key"
  let sharedSecret ← (m.keyManager.DeriveSharedSecret remotePublicKey).wrapErr
    "failed to derive shared secret"
  let sessionKey := DeriveKey P sharedSecret (bytesOf "voltage-session")
  pure sessionKey

/-- `(*Manager).CreateHandshakeResponse`. -/
def Manager.CreateHandshakeResponse {P : Crypto} (m : Manager P) (now : Int) :
    Outcome Message := do
  let publicKeyBytes := m.keyManager.GetPublicKeyBytes
  let msg := NewMessage now MsgTypeAck publicKeyBytes
  let msg := { msg with HMAC := m.auth.GenerateHMAC P msg }
  pure msg

/-- `(*Manager).ProcessHandshakeResponse`. -/
def Manager.ProcessHandshakeResponse {P : Crypto} (m : Manager P) (msg : Message) :
    Outcome Bytes := do
  if msg.Type_ ≠ MsgTypeAck then
    .error (.errorf "expected handshake response, got type %d" [msg.Type_.toNat])
  else
  if !(m.auth.VerifyHMAC P msg) then
    .error .ErrInvalidSignature
  else
  let remotePublicKey ← (ParsePublicKey P msg.Payload).wrapErr
    "failed to parse remote public key"
  let sharedSecret ← (m.keyManager.DeriveSharedSecret remotePublicKey).wrapErr
    "failed to derive shared secret"
  let sessionKey := DeriveKey P sharedSecret (bytesOf "voltage-session")
  pure sessionKey

/-! ## pkg/client/client.go -/

/-- The state of a `zstd.Encoder` the client holds: whether `Close` was called
on it.  The library keeps an encoder usable by `EncodeAll` after `Close`. -/
structure zstd.Encoder where
  closed : Bool
deriving DecidableEq, Repr

/-- The state of a `zstd.Decoder` the client holds: whether `Close` was called
on it.  A closed decoder cannot be used again. -/
structure zstd.Decoder where
  closed : Bool
deriving DecidableEq, Repr

/-- `(*zstd.Encoder).EncodeAll(data, nil)`. -/
def zstd.Encoder.EncodeAll (P : Crypto) (_e : zstd.Encoder) (data : Bytes) : Bytes :=
  P.zstdEncodeAll data

/-- `(*zstd.Encoder).Close`. -/
def zstd.Encoder.Close (_e : zstd.Encoder) : zstd.Encoder := { closed := true }

/-- `(*zstd.Decoder).DecodeAll(data, nil)`: a closed decoder returns the
library's error "decoder used after Close". -/
def zstd.Decoder.DecodeAll (P : Crypto) (d : zstd.Decoder) (data : Bytes) : Outcome Bytes :=
  if d.closed then .error (.lib "zstd: decoder used after Close")
  else orLibErr "zstd" (P.zstdDecodeAll data)

/-- `(*zstd.Decoder).Close`. -/
def zstd.Decoder.Close (_d : zstd.Decoder) : zstd.Decoder := { closed := true }

/-- The Go struct `client.Client`.  The fields encryptor and auth are
pointers that are nil until a session is set up; compressor and decompressor
are nil unless compression is enabled, and otherwise hold the state of the
codec object they point to. -/
structure Client (P : Crypto) where
  keyManager : KeyManager P
  encryptor : Option Encryptor
  auth : Option Authenticator
  handshaker : Manager P
  compressor : Option zstd.Encoder
  decompressor : Option zstd.Decoder
  sessionKey : Bytes
  connected : Bool
  useCompression : Bool

/-- The Go struct `client.Config`; an absent PrivateKey is the nil slice. -/
structure Config where
  PrivateKey : Option Bytes
  EnableCompression : Bool

/-- `client.New`; generated is what `curve.GenerateKey(rand.Reader)` yields
when no private key is configured.  `zstd.NewWriter` and `zstd.NewReader`,
called with a nil stream and a valid option, return no error. -/
def New (P : Crypto) (config : Config) (generated : Option P.PrivateKey) :
    Outcome (Client P) := do
  let keyManager ← match config.PrivateKey with
    | some keyBytes => do
      let privateKey ← (orLibErr "crypto/ecdh" (P.newPrivateKey keyBytes)).wrapErr
        "failed to parse private key"
      pure (NewKeyManagerFromPrivate P privateKey)
    | none => (NewKeyManager P generated).wrapErr "failed to create key manager"
  let client : Client P :=
    { keyManager := keyManager, encryptor := none, auth := none,
      handshaker := NewManager P keyManager, compressor := none, decompressor := none,
      sessionKey := [], connected := false, useCompression := config.EnableCompression }
  if config.EnableCompression then
    let client := { client with compressor := some { closed := false } }
    let client := { client with decompressor := some { closed := false } }
    pure client
  else
    pure client

/-- `(*Client).GetPublicKey`. -/
def Client.GetPublicKey {P : Crypto} (c : Client P) : Bytes :=
  c.keyManager.GetPublicKeyBytes

/-- `(*Client).StartHandshake`. -/
def Client.StartHandshake {P : Crypto} (c : Client P) (now : Int) : Outcome Message :=
  c.handshaker.CreateHandshakeMessage now

/-- `(*Client).setupSession`: the returned error and the client afterwards. -/
def Client.setupSession {P : Crypto} (c : Client P) (sessionKey : Bytes) :
    Outcome Unit × Client P :=
  let c := { c with sessionKey := sessionKey }
  match (NewEncryptor sessionKey).wrapErr "failed to create encryptor" with
  | .error e => (.error e, c)
  | .panic => (.panic, c)
  | .ok encryptor =>
    let c := { c with encryptor := some encryptor }
    let c := { c with auth := some (NewAuthenticator sessionKey) }
    let c := { c with connected := true }
    (.ok (), c)

/-- `(*Client).ProcessHandshake`: the result and the client afterwards. -/
def Client.ProcessHandshake {P : Crypto} (c : Client P) (now : Int) (msg : Message) :
    Outcome Message × Client P :=
  match c.handshaker.ProcessHandshakeMessage msg with
  | .error e => (.error e, c)
  | .panic => (.panic, c)
  | .ok sessionKey =>
    match c.setupSession sessionKey with
    | (.error e, c) => (.error e, c)
    | (.panic, c) => (.panic, c)
    | (.ok (), c) => (c.handshaker.CreateHandshakeResponse now, c)

/-- `(*Client).CompleteHandshake`: the returned error and the client
afterwards. -/
def Client.CompleteHandshake {P : Crypto} (c : Client P) (msg : Message) :
    Outcome Unit × Client P :=
  match c.handshaker.ProcessHandshakeResponse msg with
  | .error e => (.error e, c)
  | .panic => (.panic, c)
  | .ok sessionKey => c.setupSession sessionKey

/-- `(*Client).Encrypt` at clock reading now, with rnd the bytes the random
source delivers. -/
def Client.Encrypt {P : Crypto} (c : Client P) (now : Int) (rnd : Bytes) (data : Bytes) :
    Outcome Message := do
  if !c.connected then
    .error .ErrNotConnected
  else
  let payload ←
    if c.useCompression && c.compressor.isSome then do
      let compressor ← deref c.compressor
      pure (compressor.EncodeAll P data)
    else pure data
  let encryptedPayload ← (Encryptor.Encrypt P c.encryptor rnd payload).wrapErr
    "failed to encrypt"
  let msg := NewMessage now MsgTypeData encryptedPayload
  let auth ← deref c.auth
  let msg := { msg with HMAC := auth.GenerateHMAC P msg }
  pure msg

/-- `(*Client).Decrypt` at clock reading now. -/
def Client.Decrypt {P : Crypto} (c : Client P) (now : Int) (msg : Message) :
    Outcome Bytes := do
  if !c.connected then
    .error .ErrNotConnected
  else
  let auth ← deref c.auth
  if !(auth.VerifyHMAC P msg) then
    .error .ErrInvalidSignature
  else
  if msg.GetAge now > 300 then
    .error .ErrInvalidTimestamp
  else
  let decryptedPayload ← (Encryptor.Decrypt P c.encryptor msg.Payload).wrapErr
    "failed to decrypt"
  if c.useCompression && c.decompressor.isSome then
    let decompressor ← deref c.decompressor
    let decompressed ← (decompressor.DecodeAll P decryptedPayload).wrapErr
      "failed to decompress"
    pure decompressed
  else
  pure decryptedPayload

/-- `(*Client).CreateHeartbeat` at clock reading now. -/
def Client.CreateHeartbeat {P : Crypto} (c : Client P) (now : Int) : Outcome Message := do
  let msg := NewMessage now MsgTypeHeartbeat (bytesOf "ping")
  if c.connected then
    let auth ← deref c.auth
    let msg := { msg with HMAC := auth.GenerateHMAC P msg }
    pure msg
  else
  pure msg

/-- `(*Client).IsConnected`. -/
def Client.IsConnected {P : Crypto} (c : Client P) : Bool := c.connected

/-- `(*Client).Close`: the client afterwards; the returned error is nil. -/
def Client.Close {P : Crypto} (c : Client P) : Client P :=
  let c := { c with connected := false }
  let c := match c.compressor with
    | some compressor => { c with compressor := some compressor.Close }
    | none => c
  let c := match c.decompressor with
    | some decompressor => { c with decompressor := some decompressor.Close }
    | none => c
  c

/-! ## A concrete instance of the primitives

Small stand-ins with the shape of the library functions, so that the
definitions above can be evaluated at concrete inputs.  They are not the real
cryptography. -/

/-- A one-byte digest of a byte string. -/
def toyDigest (bs : Bytes) : UInt8 := bs.foldl (fun acc b => acc * 31 + b + 7) 1

/-- A stand-in for AES-GCM sealing: the plaintext masked with a key and nonce
byte, then a 16-byte tag. -/
def toySeal (key nonce plaintext : Bytes) : Bytes :=
  plaintext.map (fun b => b ^^^ toyDigest (key ++ nonce))
    ++ List.replicate TagSize (toyDigest (key ++ nonce ++ plaintext))

/-- A stand-in for AES-GCM opening: unmask, then compare the tag. -/
def toyOpen (key nonce ciphertext : Bytes) : Option Bytes :=
  if ciphertext.length < TagSize then none else
  let body := ciphertext.take (ciphertext.length - TagSize)
  let plaintext := body.map (fun b => b ^^^ toyDigest (key ++ nonce))
  if ciphertext.drop (ciphertext.length - TagSize)
      = List.replicate TagSize (toyDigest (key ++ nonce ++ plaintext))
  then some plaintext else none

/-- The concrete instance: Diffie-Hellman in the integers modulo 251 with
generator 6, digests of `toyDigest` repeated to 32 bytes, `toySeal` and
`toyOpen`, and a codec that prepends one marker byte. -/
def toyCrypto : Crypto where
  PrivateKey := Nat
  PublicKey := Nat
  publicKey := fun a => 6 ^ a % 251
  publicKeyBytes := fun p => [4, byte p]
  newPublicKey := fun bs =>
    match bs with
    | [4, x] => if 0 < x.toNat ∧ x.toNat < 251 then some x.toNat else none
    | _ => none
  newPrivateKey := fun bs =>
    match bs with
    | [x] => if 0 < x.toNat ∧ x.toNat < 250 then some x.toNat else none
    | _ => none
  ecdh := fun a p => some (List.replicate 32 (byte (p ^ a % 251)))
  sha256 := fun bs => List.replicate 32 (toyDigest bs)
  hmacSha256 := fun key msg => List.replicate 32 (toyDigest (key ++ 0 :: msg))
  gcmSeal := toySeal
  gcmOpen := toyOpen
  zstdEncodeAll := fun bs => 0x28 :: bs
  zstdDecodeAll := fun bs =>
    match bs with
    | 0x28 :: rest => some rest
    | _ => none

/-! ## Fields of the wire format -/

/-- The number stored big-endian in bytes 2..9 of a buffer: the timestamp
field of the wire format, as an unsigned number. -/
def timestampField (data : Bytes) : Nat :=
  (data.getD 2 0).toNat * 2 ^ 56 + (data.getD 3 0).toNat * 2 ^ 48
    + (data.getD 4 0).toNat * 2 ^ 40 + (data.getD 5 0).toNat * 2 ^ 32
    + (data.getD 6 0).toNat * 2 ^ 24 + (data.getD 7 0).toNat * 2 ^ 16
    + (data.getD 8 0).toNat * 2 ^ 8 + (data.getD 9 0).toNat

/-- The number stored big-endian in bytes 10..13 of a buffer: the
payload-length field of the wire format. -/
def payloadLenField (data : Bytes) : Nat :=
  (data.getD 10 0).toNat * 2 ^ 24 + (data.getD 11 0).toNat * 2 ^ 16
    + (data.getD 12 0).toNat * 2 ^ 8 + (data.getD 13 0).toNat

/-! ## Sessions -/

/-- A client holds a session under key k: the state `setupSession` leaves
when it succeeds with k. -/
def Client.HasSession {P : Crypto} (c : Client P) (k : Bytes) : Prop :=
  c.connected = true ∧ c.sessionKey = k ∧ k.length = KeySize ∧
    c.encryptor = some { key := k } ∧ c.auth = some (NewAuthenticator k)

instance {P : Crypto} (c : Client P) (k : Bytes) : Decidable (c.HasSession k) := by
  unfold Client.HasSession
  infer_instance

/-- The bytes the MAC of a message is computed over: version, type, the
timestamp as eight big-endian bytes, the payload. -/
def macInput (msg : Message) : Bytes :=
  [msg.Version, msg.Type_] ++ bigEndian64 (toUint64 msg.Timestamp) ++ msg.Payload

/-- A byte string with bit i flipped: bit `i % 8` of byte `i / 8`. -/
def flipBit (bs : Bytes) (i : Nat) : Bytes :=
  bs.set (i / 8) (bs.getD (i / 8) 0 ^^^ ((1 : UInt8) <<< UInt8.ofNat (i % 8)))

/-! ## Concrete clients -/

/-- The client `client.New` builds in the concrete instance from a generated
private key. -/
def toyFresh (priv : Nat) (compression : Bool) : Client toyCrypto :=
  { keyManager := NewKeyManagerFromPrivate toyCrypto priv,
    encryptor := none, auth := none,
    handshaker := NewManager toyCrypto (NewKeyManagerFromPrivate toyCrypto priv),
    compressor := if compression then some { closed := false } else none,
    decompressor := if compression then some { closed := false } else none,
    sessionKey := [], connected := false, useCompression := compression }

/-- The session key the private keys 5 and 9 agree on in the concrete
instance. -/
def toyKey : Bytes := List.replicate 32 40

/-- The handshake message of the client with private key 5 at time 1000. -/
def toyHello : Message :=
  { Version := 1, Type_ := 1, Timestamp := 1000, Payload := [4, 246],
    HMAC := List.replicate 32 253 }

/-- The answer of the client with private key 9 at time 1001. -/
def toyAck : Message :=
  { Version := 1, Type_ := 5, Timestamp := 1001, Payload := [4, 46],
    HMAC := List.replicate 32 250 }

/-- The initiator (private key 5) after the handshake. -/
def toyInitiator (compression : Bool) : Client toyCrypto :=
  ((toyFresh 5 compression).CompleteHandshake toyAck).2

/-- The responder (private key 9) after the handshake. -/
def toyResponder (compression : Bool) : Client toyCrypto :=
  ((toyFresh 9 compression).ProcessHandshake 1001 toyHello).2

/-- A data message with a given timestamp and payload, carrying the MAC under
`toyKey`. -/
def toyData (timestamp : Int) (payload : Bytes) : Message :=
  { Version := ProtocolVersion, Type_ := MsgTypeData, Timestamp := timestamp,
    Payload := payload,
    HMAC := toyCrypto.hmacSha256 toyKey ([ProtocolVersion, MsgTypeData]
      ++ bigEndian64 (toUint64 timestamp) ++ payload) }

/-- What the encryptor under `toyKey` yields for the plaintext `[104, 105]`
with the nonce 1, ..., 12: nonce, masked plaintext, tag. -/
def toySealed : Bytes :=
  [1, 2, 3, 4, 5, 6, 7, 8, 9, 10, 11, 12, 239, 238] ++ List.replicate 16 168

/-! ## Sequences of calls on one client -/

/-- One call on a client, with its arguments, the clock reading and the random
bytes it meets. -/
inductive Op where
  | StartHandshake (now : Int)
  | ProcessHandshake (now : Int) (msg : Message)
  | CompleteHandshake (msg : Message)
  | Encrypt (now : Int) (rnd data : Bytes)
  | Decrypt (now : Int) (msg : Message)
  | CreateHeartbeat (now : Int)
  | Close
deriving DecidableEq, Repr

/-- The client after a call.  `StartHandshake`, `Encrypt`, `Decrypt` and
`CreateHeartbeat` assign no field of the client. -/
def Client.step {P : Crypto} (c : Client P) : Op → Client P
  | .StartHandshake _ => c
  | .ProcessHandshake now msg => (c.ProcessHandshake now msg).2
  | .CompleteHandshake msg => (c.CompleteHandshake msg).2
  | .Encrypt _ _ _ => c
  | .Decrypt _ _ => c
  | .CreateHeartbeat _ => c
  | .Close => c.Close

/-- The client after a sequence of calls. -/
def Client.run {P : Crypto} (c : Client P) : List Op → Client P
  | [] => c
  | op :: ops => (c.step op).run ops

/-- The number of calls of a sequence in which the connected flag goes from
false to true. -/
def Client.connectCount {P : Crypto} (c : Client P) : List Op → Nat
  | [] => 0
  | op :: ops =>
    (if c.connected = false ∧ (c.step op).connected = true then 1 else 0)
      + (c.step op).connectCount ops

/-- The number of `Close` calls in a sequence. -/
def closeCount : List Op → Nat
  | [] => 0
  | op :: ops => (if op = .Close then 1 else 0) + closeCount ops

/-- The responder of the concrete instance, with compression, that answered
the handshake, was closed, and answered the handshake again. -/
def toyReopened : Client toyCrypto :=
  (((toyFresh 9 true).run [.ProcessHandshake 1001 toyHello, .Close]).ProcessHandshake
    1001 toyHello).2

set_option maxRecDepth 8192

/-! ## Sequencing lemmas -/

@[simp] theorem Outcome.ok_bind {α β : Type} (a : α) (f : α → Outcome β) :
    (Outcome.ok a >>= f) = f a := rfl

@[simp] theorem Outcome.error_bind {α β : Type} (e : Err) (f : α → Outcome β) :
    (Outcome.error e >>= f) = Outcome.error e := rfl

@[simp] theorem Outcome.panic_bind {α β : Type} (f : α → Outcome β) :
    (Outcome.panic >>= f) = Outcome.panic := rfl

@[simp] theorem Outcome.bind_ok_right {α : Type} (x : Outcome α) :
    (x >>= fun a => Outcome.ok a) = x := by
  cases x <;> rfl

@[simp] theorem Outcome.pure_eq {α : Type} (a : α) : (pure a : Outcome α) = Outcome.ok a := rfl

@[simp] theorem Outcome.wrapErr_ok {α : Type} (text : String) (a : α) :
    (Outcome.ok a).wrapErr text = Outcome.ok a := rfl

@[simp] theorem Outcome.wrapErr_error {α : Type} (text : String) (e : Err) :
    (Outcome.error e : Outcome α).wrapErr text = Outcome.error (Err.wrap text e) := rfl

@[simp] theorem Outcome.wrapErr_panic {α : Type} (text : String) :
    (Outcome.panic : Outcome α).wrapErr text = Outcome.panic := rfl

/-! ## Slices -/

theorem zeros_length (n : Nat) : (zeros n).length = n := by simp [zeros]

theorem copy_length (dst src : Bytes) : (copy dst src).length = dst.length := by
  simp only [copy, List.length_append, List.length_take, List.length_drop]
  omega

/-- Copying a source that fits fills a prefix and leaves the rest. -/
theorem copy_append_of_length_eq (front rest src : Bytes) (h : src.length = front.length) :
    copy (front ++ rest) src = src ++ rest := by
  simp only [copy, List.length_append]
  rw [List.take_of_length_le (by omega), h, List.drop_left]

/-- Copying a source of the destination's length replaces the destination. -/
theorem copy_of_length_eq (dst src : Bytes) (h : src.length = dst.length) :
    copy dst src = src := by
  have := copy_append_of_length_eq dst [] src h
  simpa using this

theorem store_append (front : Bytes) (x : UInt8) (rest : Bytes) (i : Nat) (v : UInt8)
    (hi : i = front.length) : store (front ++ x :: rest) i v = .ok (front ++ v :: rest) := by
  subst hi
  simp [store, List.set_append]

theorem copyAt_append (front rest src : Bytes) (off : Nat) (hoff : off = front.length) :
    copyAt (front ++ rest) off src = .ok (front ++ copy rest src) := by
  subst hoff
  simp [copyAt, sliceFrom]

theorem putUint64At_append (front rest : Bytes) (off v : Nat) (hoff : off = front.length)
    (h8 : 8 ≤ rest.length) :
    putUint64At (front ++ rest) off v = .ok (front ++ copy rest (bigEndian64 (v % 2 ^ 64))) := by
  subst hoff
  have h8n : ¬ rest.length < 8 := Nat.not_lt.mpr h8
  simp only [putUint64At, sliceFrom, List.length_append, Nat.le_add_right, if_true,
    Outcome.ok_bind, List.drop_left, List.take_left, h8n, if_false, Outcome.pure_eq]

theorem putUint32At_append (front rest : Bytes) (off v : Nat) (hoff : off = front.length)
    (h4 : 4 ≤ rest.length) :
    putUint32At (front ++ rest) off v = .ok (front ++ copy rest (bigEndian32 (v % 2 ^ 32))) := by
  subst hoff
  have h4n : ¬ rest.length < 4 := Nat.not_lt.mpr h4
  simp only [putUint32At, sliceFrom, List.length_append, Nat.le_add_right, if_true,
    Outcome.ok_bind, List.drop_left, List.take_left, h4n, if_false, Outcome.pure_eq]

theorem toUint64_lt (x : Int) : toUint64 x < 2 ^ 64 := by
  unfold toUint64
  have h1 : (0 : Int) ≤ x % 2 ^ 64 := Int.emod_nonneg _ (by norm_num)
  have h2 : x % 2 ^ 64 < 2 ^ 64 := Int.emod_lt_of_pos _ (by norm_num)
  omega

/-- The buffer `Marshal` returns, as a concatenation. -/
theorem Marshal_eq (m : Message) :
    m.Marshal = .ok ([m.Version, m.Type_] ++ bigEndian64 (toUint64 m.Timestamp)
      ++ bigEndian32 (m.Payload.length % 2 ^ 32) ++ m.Payload ++ copy (zeros HMACSize) m.HMAC) := by
  have hsize : zeros (1 + 1 + TimestampSize + 4 + m.Payload.length + HMACSize)
      = ([] : Bytes) ++ (0 : UInt8) :: ((0 : UInt8) :: (zeros 8 ++ (zeros 4
          ++ (zeros m.Payload.length ++ zeros HMACSize)))) := by
    simp only [zeros, TimestampSize, HMACSize, List.nil_append, ← List.replicate_add,
      ← List.replicate_succ]
    congr 1
    omega
  have h64 : (bigEndian64 (toUint64 m.Timestamp % 2 ^ 64)).length = (zeros 8).length := by
    simp [bigEndian64, zeros]
  have h32 : (bigEndian32 (m.Payload.length % 2 ^ 32 % 2 ^ 32)).length = (zeros 4).length := by
    simp [bigEndian32, zeros]
  unfold Message.Marshal
  simp only [hsize, Outcome.pure_eq]
  rw [store_append [] 0 _ 0 m.Version rfl]
  simp only [Outcome.ok_bind, List.nil_append, Nat.zero_add]
  rw [show m.Version :: (0 : UInt8) :: (zeros 8 ++ (zeros 4 ++ (zeros m.Payload.length
        ++ zeros HMACSize)))
      = [m.Version] ++ (0 : UInt8) :: (zeros 8 ++ (zeros 4 ++ (zeros m.Payload.length
        ++ zeros HMACSize))) from rfl,
    store_append [m.Version] 0 _ 1 m.Type_ rfl]
  simp only [Outcome.ok_bind, List.singleton_append]
  rw [show m.Version :: m.Type_ :: (zeros 8 ++ (zeros 4 ++ (zeros m.Payload.length
        ++ zeros HMACSize)))
      = [m.Version, m.Type_] ++ (zeros 8 ++ (zeros 4 ++ (zeros m.Payload.length
        ++ zeros HMACSize))) from rfl,
    putUint64At_append [m.Version, m.Type_] _ (1 + 1) _ rfl (by simp [zeros])]
  simp only [Outcome.ok_bind, copy_append_of_length_eq _ _ _ h64, TimestampSize]
  rw [← List.append_assoc, putUint32At_append ([m.Version, m.Type_]
    ++ bigEndian64 (toUint64 m.Timestamp % 2 ^ 64)) _ (1 + 1 + 8) _ (by simp [bigEndian64])
    (by simp [zeros])]
  simp only [Outcome.ok_bind, copy_append_of_length_eq _ _ _ h32]
  rw [← List.append_assoc, copyAt_append ([m.Version, m.Type_]
    ++ bigEndian64 (toUint64 m.Timestamp % 2 ^ 64)
    ++ bigEndian32 (m.Payload.length % 2 ^ 32 % 2 ^ 32)) _ _ (1 + 1 + 8 + 4)
    (by simp [bigEndian64, bigEndian32])]
  simp only [Outcome.ok_bind, copy_append_of_length_eq _ _ _ (zeros_length _).symm]
  rw [← List.append_assoc, copyAt_append ([m.Version, m.Type_]
    ++ bigEndian64 (toUint64 m.Timestamp % 2 ^ 64)
    ++ bigEndian32 (m.Payload.length % 2 ^ 32 % 2 ^ 32) ++ m.Payload) _ _
    (1 + 1 + 8 + 4 + m.Payload.length) (by simp [bigEndian64, bigEndian32]; omega)]
  simp only [Outcome.ok_bind, Nat.mod_mod, Nat.mod_eq_of_lt (toUint64_lt _)]

/-! ## Big-endian numbers -/

theorem byte_toNat (v : Nat) : (byte v).toNat = v % 256 := by
  simp [byte, UInt8.ofNat, UInt8.toNat]

theorem uint64Of_bigEndian64 (v : Nat) (h : v < 2 ^ 64) (rest : Bytes) :
    uint64Of (bigEndian64 v ++ rest) = .ok v := by
  simp only [bigEndian64, List.cons_append, List.nil_append, uint64Of, byte_toNat]
  congr 1
  omega

theorem uint32Of_bigEndian32 (v : Nat) (h : v < 2 ^ 32) (rest : Bytes) :
    uint32Of (bigEndian32 v ++ rest) = .ok v := by
  simp only [bigEndian32, List.cons_append, List.nil_append, uint32Of, byte_toNat]
  congr 1
  omega

theorem toInt64_toUint64 (x : Int) (h1 : -2 ^ 63 ≤ x) (h2 : x < 2 ^ 63) :
    toInt64 (toUint64 x) = x := by
  unfold toInt64 toUint64 wrapInt64
  omega

theorem wrapInt64_of_range (x : Int) (h1 : -2 ^ 63 ≤ x) (h2 : x < 2 ^ 63) :
    wrapInt64 x = x := by
  unfold wrapInt64
  omega

/-! ## Reading a buffer -/

theorem index_eq (b : Bytes) (i : Nat) (h : i < b.length) : index b i = .ok (b.getD i 0) := by
  simp [index, h]

theorem uint64Of_drop (data : Bytes) (h : 10 ≤ data.length) :
    uint64Of (data.drop 2) = .ok (timestampField data) := by
  rw [List.drop_eq_getElem_cons (by omega : 2 < data.length),
    List.drop_eq_getElem_cons (by omega : 3 < data.length),
    List.drop_eq_getElem_cons (by omega : 4 < data.length),
    List.drop_eq_getElem_cons (by omega : 5 < data.length),
    List.drop_eq_getElem_cons (by omega : 6 < data.length),
    List.drop_eq_getElem_cons (by omega : 7 < data.length),
    List.drop_eq_getElem_cons (by omega : 8 < data.length),
    List.drop_eq_getElem_cons (by omega : 9 < data.length)]
  simp only [uint64Of, timestampField]
  rw [List.getD_eq_getElem _ _ (by omega : 2 < data.length),
    List.getD_eq_getElem _ _ (by omega : 3 < data.length),
    List.getD_eq_getElem _ _ (by omega : 4 < data.length),
    List.getD_eq_getElem _ _ (by omega : 5 < data.length),
    List.getD_eq_getElem _ _ (by omega : 6 < data.length),
    List.getD_eq_getElem _ _ (by omega : 7 < data.length),
    List.getD_eq_getElem _ _ (by omega : 8 < data.length),
    List.getD_eq_getElem _ _ (by omega : 9 < data.length)]

theorem uint32Of_drop (data : Bytes) (h : 14 ≤ data.length) :
    uint32Of (data.drop 10) = .ok (payloadLenField data) := by
  rw [List.drop_eq_getElem_cons (by omega : 10 < data.length),
    List.drop_eq_getElem_cons (by omega : 11 < data.length),
    List.drop_eq_getElem_cons (by omega : 12 < data.length),
    List.drop_eq_getElem_cons (by omega : 13 < data.length)]
  simp only [uint32Of, payloadLenField]
  rw [List.getD_eq_getElem _ _ (by omega : 10 < data.length),
    List.getD_eq_getElem _ _ (by omega : 11 < data.length),
    List.getD_eq_getElem _ _ (by omega : 12 < data.length),
    List.getD_eq_getElem _ _ (by omega : 13 < data.length)]

theorem payloadLenField_lt (data : Bytes) : payloadLenField data < 2 ^ 32 := by
  unfold payloadLenField
  have h0 := UInt8.toNat_lt (data.getD 10 0)
  have h1 := UInt8.toNat_lt (data.getD 11 0)
  have h2 := UInt8.toNat_lt (data.getD 12 0)
  have h3 := UInt8.toNat_lt (data.getD 13 0)
  omega

/-- What `UnmarshalMessage` returns, case by case. -/
theorem UnmarshalMessage_eq (data : Bytes) :
    UnmarshalMessage data =
      if data.length < 46 then .error .ErrInvalidMessage
      else if data.length < 14 + payloadLenField data + 32 then .error .ErrInvalidMessage
      else .ok { Version := data.getD 0 0, Type_ := data.getD 1 0,
                 Timestamp := toInt64 (timestampField data),
                 Payload := (data.drop 14).take (payloadLenField data),
                 HMAC := (data.drop (14 + payloadLenField data)).take 32 } := by
  unfold UnmarshalMessage
  simp only [TimestampSize, HMACSize, Nat.reduceAdd, Nat.zero_add]
  by_cases hshort : data.length < 46
  · simp only [hshort, if_true]
  · simp only [hshort, if_false]
    rw [index_eq data 0 (by omega), index_eq data 1 (by omega)]
    simp only [Outcome.ok_bind, sliceFrom, (by omega : 2 ≤ data.length),
      (by omega : 10 ≤ data.length), if_true, uint64Of_drop data (by omega),
      uint32Of_drop data (by omega)]
    by_cases hlen : data.length < 14 + payloadLenField data + 32
    · simp only [hlen, if_true]
    · simp only [hlen, if_false, slice, Outcome.pure_eq]
      rw [if_pos (by omega), if_pos (by omega)]
      simp only [Outcome.ok_bind, Nat.add_sub_cancel_left]
      congr 2
      · apply copy_of_length_eq
        simp only [List.length_take, List.length_drop, zeros_length]
        omega
      · simp only [copy, zeros_length, List.length_drop]
        rw [List.drop_of_length_le (l := zeros 32) (by simp only [zeros_length]; omega),
          List.append_nil]

/-! ## C3 and C4: the wire codec -/

/-- C3: `UnmarshalMessage` never panics, whatever the buffer (no index or
slice bound is out of range); a buffer shorter than 46 bytes, and a buffer
whose big-endian payload-length field at bytes 10..13 declares a payload with
`14 + payload_len + 32` beyond the buffer length, both give
`ErrInvalidMessage` and no message; every other buffer decodes. -/
theorem unmarshal_malformed_input_safe (data : Bytes) :
    UnmarshalMessage data ≠ .panic ∧
    (data.length < 46 → UnmarshalMessage data = .error .ErrInvalidMessage) ∧
    (data.length < 14 + payloadLenField data + 32 →
      UnmarshalMessage data = .error .ErrInvalidMessage) ∧
    (46 ≤ data.length → 14 + payloadLenField data + 32 ≤ data.length →
      ∃ msg, UnmarshalMessage data = .ok msg) := by
  rw [UnmarshalMessage_eq]
  refine ⟨?_, ?_, ?_, ?_⟩
  · split
    · simp
    · split <;> simp
  · intro h
    simp [h]
  · intro h
    by_cases hshort : data.length < 46
    · simp [hshort]
    · simp [hshort, h]
  · intro h1 h2
    rw [if_neg (by omega), if_neg (by omega)]
    exact ⟨_, rfl⟩

/-- C3 at concrete buffers: ten bytes; 46 bytes whose length field declares one
payload byte; 46 zero bytes, which decode. -/
theorem unmarshal_malformed_input_safe_witness :
    UnmarshalMessage (List.replicate 10 7) = .error .ErrInvalidMessage ∧
    UnmarshalMessage (List.replicate 13 0 ++ 1 :: List.replicate 32 0)
      = .error .ErrInvalidMessage ∧
    (∃ msg, UnmarshalMessage (List.replicate 46 0) = .ok msg) :=
  ⟨(unmarshal_malformed_input_safe (List.replicate 10 7)).2.1 (by decide),
   (unmarshal_malformed_input_safe (List.replicate 13 0 ++ 1 :: List.replicate 32 0)).2.2.1
     (by decide),
   (unmarshal_malformed_input_safe (List.replicate 46 0)).2.2.2 (by decide) (by decide)⟩

/-- C4: for every message, `Marshal` returns a buffer of exactly
`14 + len(Payload) + 32` bytes: byte 0 is Version, byte 1 is Type, bytes 2..9
are the timestamp's two's complement (`uint64(Timestamp)`) big-endian, bytes
10..13 are `uint32(len(Payload))` big-endian, then the payload, then the
32-byte MAC field, which holds the HMAC slice (zero-padded or cut to 32 bytes
when the slice has another length). -/
theorem marshal_layout (m : Message) :
    ∃ buf, m.Marshal = .ok buf ∧
      buf.length = 14 + m.Payload.length + 32 ∧
      buf.get? 0 = some m.Version ∧
      buf.get? 1 = some m.Type_ ∧
      (buf.drop 2).take 8 = bigEndian64 (toUint64 m.Timestamp) ∧
      timestampField buf = toUint64 m.Timestamp ∧
      (-2 ^ 63 ≤ m.Timestamp → m.Timestamp < 2 ^ 63 →
        toInt64 (timestampField buf) = m.Timestamp) ∧
      (buf.drop 10).take 4 = bigEndian32 (m.Payload.length % 2 ^ 32) ∧
      payloadLenField buf = m.Payload.length % 2 ^ 32 ∧
      (m.Payload.length < 2 ^ 32 → payloadLenField buf = m.Payload.length) ∧
      (buf.drop 14).take m.Payload.length = m.Payload ∧
      buf.drop (14 + m.Payload.length) = copy (zeros HMACSize) m.HMAC ∧
      (buf.drop (14 + m.Payload.length)).length = 32 ∧
      (m.HMAC.length = HMACSize → buf.drop (14 + m.Payload.length) = m.HMAC) := by
  refine ⟨_, Marshal_eq m, ?_⟩
  have hts : timestampField ([m.Version, m.Type_] ++ bigEndian64 (toUint64 m.Timestamp)
      ++ bigEndian32 (m.Payload.length % 2 ^ 32) ++ m.Payload ++ copy (zeros HMACSize) m.HMAC)
      = toUint64 m.Timestamp := by
    have hlt := toUint64_lt m.Timestamp
    simp only [timestampField, bigEndian64, List.cons_append, List.nil_append,
      List.getD_cons_succ, List.getD_cons_zero, byte_toNat]
    omega
  have hpl : payloadLenField ([m.Version, m.Type_] ++ bigEndian64 (toUint64 m.Timestamp)
      ++ bigEndian32 (m.Payload.length % 2 ^ 32) ++ m.Payload ++ copy (zeros HMACSize) m.HMAC)
      = m.Payload.length % 2 ^ 32 := by
    simp only [payloadLenField, bigEndian64, bigEndian32, List.cons_append, List.nil_append,
      List.getD_cons_succ, List.getD_cons_zero, byte_toNat]
    omega
  have hdrop : List.drop (14 + m.Payload.length) ([m.Version, m.Type_]
      ++ bigEndian64 (toUint64 m.Timestamp)
      ++ bigEndian32 (m.Payload.length % 2 ^ 32) ++ m.Payload ++ copy (zeros HMACSize) m.HMAC)
      = copy (zeros HMACSize) m.HMAC := by
    have hl : ([m.Version, m.Type_] ++ bigEndian64 (toUint64 m.Timestamp)
      ++ bigEndian32 (m.Payload.length % 2 ^ 32) ++ m.Payload).length
        = 14 + m.Payload.length := by
      simp [bigEndian64, bigEndian32]
      omega
    rw [← hl, List.drop_left]
  refine ⟨?_, ?_, ?_, ?_, hts, ?_, ?_, hpl, ?_, ?_, hdrop, ?_, ?_⟩
  · simp [bigEndian64, bigEndian32, copy_length, zeros_length, HMACSize]
    omega
  · simp
  · simp [bigEndian64]
  · simp [bigEndian64]
  · intro h1 h2
    rw [hts]
    exact toInt64_toUint64 _ h1 h2
  · simp [bigEndian64, bigEndian32]
  · intro h
    rw [hpl, Nat.mod_eq_of_lt h]
  · simp [bigEndian64, bigEndian32]
  · rw [hdrop, copy_length, zeros_length, HMACSize]
  · intro h
    rw [hdrop]
    exact copy_of_length_eq _ _ (by rw [zeros_length]; exact h)

/-! ## The handshake -/

/-- The MAC is computed from version, type, timestamp and payload only. -/
theorem GenerateHMAC_with_HMAC (P : Crypto) (a : Authenticator) (msg : Message) (mac : Bytes) :
    a.GenerateHMAC P { msg with HMAC := mac } = a.GenerateHMAC P msg := rfl

/-- A message carrying the MAC computed for it verifies, and no other does. -/
theorem VerifyHMAC_iff (P : Crypto) (a : Authenticator) (msg : Message) :
    a.VerifyHMAC P msg = true ↔ msg.HMAC = a.GenerateHMAC P msg := by
  simp [Authenticator.VerifyHMAC, hmacEqual, eq_comm]

/-- A message carrying the MAC computed for its other fields verifies. -/
theorem VerifyHMAC_generated (P : Crypto) (a : Authenticator) (v ty : UInt8) (ts : Int)
    (payload mac : Bytes) :
    a.VerifyHMAC P (Message.mk v ty ts payload
      (a.GenerateHMAC P (Message.mk v ty ts payload mac))) = true :=
  (VerifyHMAC_iff P a _).mpr rfl

/-- The responder's step on a handshake message built by a peer with public
key pub. -/
theorem ProcessHandshakeMessage_of_created {P : Crypto} (A B : Manager P) (t : Int)
    (secret : Bytes) (hauth : A.auth = B.auth)
    (hparse : P.newPublicKey (P.publicKeyBytes A.keyManager.publicKey)
      = some A.keyManager.publicKey)
    (hecdh : P.ecdh B.keyManager.privateKey A.keyManager.publicKey = some secret) :
    ∃ m1, A.CreateHandshakeMessage t = .ok m1 ∧
      B.ProcessHandshakeMessage m1 = .ok (P.hmacSha256 secret (bytesOf "voltage-session")) := by
  refine ⟨_, rfl, ?_⟩
  simp only [Manager.ProcessHandshakeMessage, NewMessage, ne_eq, not_true_eq_false, if_false,
    ← hauth, VerifyHMAC_generated, Bool.not_true, Bool.false_eq_true, ParsePublicKey,
    KeyManager.GetPublicKeyBytes, hparse, orLibErr, Outcome.wrapErr_ok, Outcome.ok_bind,
    KeyManager.DeriveSharedSecret, hecdh, DeriveKey, Outcome.pure_eq]

/-- The initiator's step on a response built by a peer with public key pub. -/
theorem ProcessHandshakeResponse_of_created {P : Crypto} (A B : Manager P) (t : Int)
    (secret : Bytes) (hauth : B.auth = A.auth)
    (hparse : P.newPublicKey (P.publicKeyBytes B.keyManager.publicKey)
      = some B.keyManager.publicKey)
    (hecdh : P.ecdh A.keyManager.privateKey B.keyManager.publicKey = some secret) :
    ∃ m2, B.CreateHandshakeResponse t = .ok m2 ∧
      A.ProcessHandshakeResponse m2 = .ok (P.hmacSha256 secret (bytesOf "voltage-session")) := by
  refine ⟨_, rfl, ?_⟩
  simp only [Manager.ProcessHandshakeResponse, NewMessage, ne_eq, not_true_eq_false, if_false,
    ← hauth, VerifyHMAC_generated, Bool.not_true, Bool.false_eq_true, ParsePublicKey,
    KeyManager.GetPublicKeyBytes, hparse, orLibErr, Outcome.wrapErr_ok, Outcome.ok_bind,
    KeyManager.DeriveSharedSecret, hecdh, DeriveKey, Outcome.pure_eq]

/-- C1: session-key agreement.  For two P-256 key pairs a and b whose public
keys parse back from their encodings and whose two ECDH computations give the
one secret, the message of `CreateHandshakeMessage` is processed by
`ProcessHandshakeMessage` of the peer, the answer of `CreateHandshakeResponse`
is processed by `ProcessHandshakeResponse`, both succeed, and both return the
same session key, HMAC-SHA256 under the ECDH secret of "voltage-session". -/
theorem handshake_session_keys_agree (P : Crypto) (a b : P.PrivateKey) (secret : Bytes)
    (t1 t2 : Int)
    (hparseA : P.newPublicKey (P.publicKeyBytes (P.publicKey a)) = some (P.publicKey a))
    (hparseB : P.newPublicKey (P.publicKeyBytes (P.publicKey b)) = some (P.publicKey b))
    (hecdhA : P.ecdh a (P.publicKey b) = some secret)
    (hecdhB : P.ecdh b (P.publicKey a) = some secret) :
    ∃ m1 m2 keyA keyB,
      (NewManager P (NewKeyManagerFromPrivate P a)).CreateHandshakeMessage t1 = .ok m1 ∧
      (NewManager P (NewKeyManagerFromPrivate P b)).ProcessHandshakeMessage m1 = .ok keyB ∧
      (NewManager P (NewKeyManagerFromPrivate P b)).CreateHandshakeResponse t2 = .ok m2 ∧
      (NewManager P (NewKeyManagerFromPrivate P a)).ProcessHandshakeResponse m2 = .ok keyA ∧
      keyA = keyB ∧
      keyB = P.hmacSha256 secret (bytesOf "voltage-session") := by
  obtain ⟨m1, h1, h2⟩ := ProcessHandshakeMessage_of_created
    (NewManager P (NewKeyManagerFromPrivate P a)) (NewManager P (NewKeyManagerFromPrivate P b))
    t1 secret rfl hparseA hecdhB
  obtain ⟨m2, h3, h4⟩ := ProcessHandshakeResponse_of_created
    (NewManager P (NewKeyManagerFromPrivate P a)) (NewManager P (NewKeyManagerFromPrivate P b))
    t2 secret rfl hparseB hecdhA
  exact ⟨m1, m2, _, _, h1, h2, h3, h4, rfl, rfl⟩

/-- C1 at the private keys 5 and 9 of the concrete instance. -/
theorem handshake_session_keys_agree_witness :
    ∃ m1 m2 keyA keyB,
      (NewManager toyCrypto (NewKeyManagerFromPrivate toyCrypto (5 : Nat))).CreateHandshakeMessage
        1000 = .ok m1 ∧
      (NewManager toyCrypto (NewKeyManagerFromPrivate toyCrypto (9 : Nat))).ProcessHandshakeMessage
        m1 = .ok keyB ∧
      (NewManager toyCrypto (NewKeyManagerFromPrivate toyCrypto (9 : Nat))).CreateHandshakeResponse
        1001 = .ok m2 ∧
      (NewManager toyCrypto (NewKeyManagerFromPrivate toyCrypto (5 : Nat))).ProcessHandshakeResponse
        m2 = .ok keyA ∧
      keyA = keyB ∧
      keyB = toyCrypto.hmacSha256 (List.replicate 32 157) (bytesOf "voltage-session") :=
  handshake_session_keys_agree toyCrypto (5 : Nat) (9 : Nat) (List.replicate 32 157) 1000 1001
    rfl rfl rfl rfl

/-! ## C5: errors of `Encryptor.Decrypt` -/

/-- C5, as the code has it: under a key `NewEncryptor` accepts,
`Encryptor.Decrypt` returns `ErrInvalidMessage` for data shorter than the
12-byte nonce and `ErrDecryptionFailed` when the GCM tag check fails; the two
error values differ, so a caller can tell the two failures apart. -/
theorem decrypt_errors_distinguished (P : Crypto) (key : Bytes) (e : Encryptor)
    (short long : Bytes) (hkey : NewEncryptor key = .ok e)
    (hshort : short.length < NonceSize) (hlong : NonceSize ≤ long.length)
    (htag : P.gcmOpen key (long.take NonceSize) (long.drop NonceSize) = none) :
    Encryptor.Decrypt P (some e) short = .error .ErrInvalidMessage ∧
    Encryptor.Decrypt P (some e) long = .error .ErrDecryptionFailed ∧
    Encryptor.Decrypt P (some e) short ≠ Encryptor.Decrypt P (some e) long := by
  have hk : key.length = 32 ∧ e = { key := key } := by
    unfold NewEncryptor at hkey
    split at hkey
    · cases hkey
    · rename_i h
      simp only [KeySize, ne_eq, Decidable.not_not] at h
      cases hkey
      exact ⟨h, rfl⟩
  obtain ⟨hlen, rfl⟩ := hk
  have h1 : Encryptor.Decrypt P (some { key := key }) short = .error .ErrInvalidMessage := by
    simp only [Encryptor.Decrypt, hshort, if_true]
  have h2 : Encryptor.Decrypt P (some { key := key }) long = .error .ErrDecryptionFailed := by
    have hn : ¬ long.length < NonceSize := Nat.not_lt.mpr hlong
    simp only [Encryptor.Decrypt, hn, if_false, deref, aesNewCipher, hlen, Nat.reduceEqDiff,
      or_true, if_true, Outcome.wrapErr_ok, Outcome.ok_bind, sliceTo, sliceFrom, hlong, htag]
  refine ⟨h1, h2, ?_⟩
  rw [h1, h2]
  simp

/-- C5 at the all-zero 32-byte key: no data, and 28 zero bytes (a nonce and a
tag that does not verify). -/
theorem decrypt_errors_distinguished_witness :
    Encryptor.Decrypt toyCrypto (some { key := List.replicate 32 0 }) []
      = .error .ErrInvalidMessage ∧
    Encryptor.Decrypt toyCrypto (some { key := List.replicate 32 0 }) (List.replicate 28 0)
      = .error .ErrDecryptionFailed ∧
    Encryptor.Decrypt toyCrypto (some { key := List.replicate 32 0 }) []
      ≠ Encryptor.Decrypt toyCrypto (some { key := List.replicate 32 0 }) (List.replicate 28 0) :=
  decrypt_errors_distinguished toyCrypto (List.replicate 32 0) { key := List.replicate 32 0 }
    [] (List.replicate 28 0) rfl (by decide) (by decide) (by decide)

/-- C5 as stated fails: with the all-zero 32-byte key, `Encryptor.Decrypt`
fails on the empty input and on 28 zero bytes (whose tag does not verify) with
two different errors. -/
theorem decrypt_errors_same_counterexample :
    ¬ (∀ (P : Crypto) (e : Encryptor) (short long : Bytes),
        e.key.length = KeySize → short.length < NonceSize → NonceSize ≤ long.length →
        P.gcmOpen e.key (long.take NonceSize) (long.drop NonceSize) = none →
        Encryptor.Decrypt P (some e) short = Encryptor.Decrypt P (some e) long) := by
  intro h
  have h1 := h toyCrypto { key := List.replicate 32 0 } [] (List.replicate 28 0)
    (by decide) (by decide) (by decide) (by decide)
  revert h1
  decide

/-! ## `Client.Decrypt` on a client that holds a session -/

theorem GenerateHMAC_eq (P : Crypto) (k : Bytes) (msg : Message) :
    (NewAuthenticator k).GenerateHMAC P msg = P.hmacSha256 k (macInput msg) := rfl

/-- The steps of `Decrypt` once a session is held: MAC, age, AEAD, codec. -/
theorem Decrypt_of_session {P : Crypto} (c : Client P) (k : Bytes) (now : Int) (msg : Message)
    (h : c.HasSession k) :
    c.Decrypt now msg =
      if msg.HMAC ≠ P.hmacSha256 k (macInput msg) then .error .ErrInvalidSignature
      else if msg.GetAge now > 300 then .error .ErrInvalidTimestamp
      else (Encryptor.Decrypt P (some { key := k }) msg.Payload).wrapErr "failed to decrypt" >>=
        fun decryptedPayload =>
          if (c.useCompression && c.decompressor.isSome) = true then
            deref c.decompressor >>= fun decompressor =>
              (decompressor.DecodeAll P decryptedPayload).wrapErr "failed to decompress"
          else .ok decryptedPayload := by
  obtain ⟨hconn, _, _, henc, hauth⟩ := h
  unfold Client.Decrypt
  simp only [hconn, Bool.not_true, Bool.false_eq_true, if_false, hauth, deref, Outcome.ok_bind,
    henc]
  by_cases hmac : msg.HMAC = P.hmacSha256 k (macInput msg)
  · have hv : (NewAuthenticator k).VerifyHMAC P msg = true :=
      (VerifyHMAC_iff P _ msg).mpr hmac
    simp only [hv, Bool.not_true, Bool.false_eq_true, if_false, ne_eq, hmac, not_true_eq_false]
    split
    · rfl
    · congr 1
      funext d
      split
      · congr 1
        funext dec
        simp
      · simp
  · have hv : (NewAuthenticator k).VerifyHMAC P msg = false := by
      cases hb : (NewAuthenticator k).VerifyHMAC P msg
      · rfl
      · exact absurd ((VerifyHMAC_iff P _ msg).mp hb) hmac
    simp only [hv, Bool.not_false, if_true, ne_eq, hmac, not_false_eq_true]

/-- What follows the age check in `Decrypt` never returns `ErrInvalidTimestamp`. -/
theorem decrypt_tail_ne_timestamp {P : Crypto} (c : Client P) (k payload : Bytes) :
    ((Encryptor.Decrypt P (some { key := k }) payload).wrapErr "failed to decrypt" >>=
        fun decryptedPayload =>
          if (c.useCompression && c.decompressor.isSome) = true then
            deref c.decompressor >>= fun decompressor =>
              (decompressor.DecodeAll P decryptedPayload).wrapErr "failed to decompress"
          else .ok decryptedPayload) ≠ .error .ErrInvalidTimestamp := by
  cases hd : Encryptor.Decrypt P (some { key := k }) payload with
  | ok d =>
    simp only [Outcome.wrapErr_ok, Outcome.ok_bind]
    split
    · cases hdec : c.decompressor with
      | none => simp [deref]
      | some dec =>
        simp only [deref, Outcome.ok_bind, zstd.Decoder.DecodeAll]
        split
        · simp
        · cases hz : P.zstdDecodeAll d <;> simp [orLibErr]
    · simp
  | error e => simp
  | panic => simp

/-! ## Bit flips -/

theorem xor_ne_self (b m : UInt8) (hm : m ≠ 0) : b ^^^ m ≠ b := by
  intro h
  apply hm
  have h1 : b.toBitVec ^^^ m.toBitVec = b.toBitVec := congrArg UInt8.toBitVec h
  have h2 : m.toBitVec = 0#8 := by
    have h3 : b.toBitVec ^^^ (b.toBitVec ^^^ m.toBitVec) = b.toBitVec ^^^ b.toBitVec := by
      rw [h1]
    rw [← BitVec.xor_assoc, BitVec.xor_self, BitVec.zero_xor] at h3
    exact h3
  cases m
  simp only at h2
  subst h2
  rfl

theorem bit_ne_zero (j : Nat) (hj : j < 8) : (1 : UInt8) <<< UInt8.ofNat j ≠ 0 := by
  interval_cases j <;> decide

/-- Flipping a bit that lies inside a byte string changes it. -/
theorem flipBit_ne (bs : Bytes) (i : Nat) (hi : i < 8 * bs.length) : flipBit bs i ≠ bs := by
  intro h
  have hlt : i / 8 < bs.length := by omega
  have hget := congrArg (fun l => l.getD (i / 8) 0) h
  simp only [flipBit] at hget
  rw [List.getD_eq_getElem _ _ (by simpa using hlt), List.getElem_set_self] at hget
  exact xor_ne_self _ _ (bit_ne_zero _ (Nat.mod_lt _ (by norm_num))) hget

/-! ## C6: the MAC check of `Client.Decrypt` -/

/-- C6: for a connected client with session key k, a message whose MAC field
differs from HMAC-SHA256 under k of version, type, timestamp (8 bytes
big-endian) and payload is answered by `Decrypt` with `ErrInvalidSignature`,
whatever its timestamp and payload (the MAC check comes before the staleness
check and the AEAD); in particular flipping any bit of the MAC field of a
correctly MAC'd message makes `Decrypt` fail so; and the MAC the authenticator
computes does not depend on the content of the MAC field. -/
theorem decrypt_rejects_bad_mac (P : Crypto) (c : Client P) (k : Bytes) (now : Int)
    (msg : Message) (hsess : c.HasSession k) :
    (msg.HMAC ≠ P.hmacSha256 k (macInput msg) →
      c.Decrypt now msg = .error .ErrInvalidSignature) ∧
    (msg.HMAC = P.hmacSha256 k (macInput msg) → ∀ i, i < 8 * msg.HMAC.length →
      c.Decrypt now { msg with HMAC := flipBit msg.HMAC i } = .error .ErrInvalidSignature) ∧
    (∀ mac, (NewAuthenticator k).GenerateHMAC P { msg with HMAC := mac }
      = P.hmacSha256 k (macInput msg)) := by
  refine ⟨?_, ?_, fun _ => rfl⟩
  · intro h
    rw [Decrypt_of_session c k now msg hsess, if_pos h]
  · intro h i hi
    rw [Decrypt_of_session c k now _ hsess, if_pos]
    show flipBit msg.HMAC i ≠ P.hmacSha256 k (macInput msg)
    rw [← h]
    exact flipBit_ne _ _ hi

/-- C6 at the responder of the concrete handshake: a fresh data message with
an all-zero MAC field, and a correctly MAC'd one with bit 9 of the MAC
flipped. -/
theorem decrypt_rejects_bad_mac_witness :
    (toyResponder false).Decrypt 2000
        { Version := 1, Type_ := 2, Timestamp := 1990, Payload := [1, 2, 3],
          HMAC := List.replicate 32 0 } = .error .ErrInvalidSignature ∧
    (toyResponder false).Decrypt 2000
        { toyData 1990 [1, 2, 3] with HMAC := flipBit (toyData 1990 [1, 2, 3]).HMAC 9 }
      = .error .ErrInvalidSignature :=
  ⟨(decrypt_rejects_bad_mac toyCrypto (toyResponder false) toyKey 2000
      { Version := 1, Type_ := 2, Timestamp := 1990, Payload := [1, 2, 3],
        HMAC := List.replicate 32 0 } (by decide)).1 (by decide),
   (decrypt_rejects_bad_mac toyCrypto (toyResponder false) toyKey 2000
      (toyData 1990 [1, 2, 3]) (by decide)).2.1 rfl 9 (by decide)⟩

/-! ## C7 and C8: the age check of `Client.Decrypt` -/

/-- The age check as the code has it: for a client that holds a session and a
correctly MAC'd message, `Decrypt` returns `ErrInvalidTimestamp` exactly when
the `int64` that `GetAge` computes exceeds 300; that number is the difference
`now - msg.Timestamp` only when the difference is itself an `int64`. -/
theorem Decrypt_age_check {P : Crypto} (c : Client P) (k : Bytes) (now : Int)
    (msg : Message) (hsess : c.HasSession k)
    (hmac : msg.HMAC = P.hmacSha256 k (macInput msg)) :
    (c.Decrypt now msg = .error .ErrInvalidTimestamp ↔ msg.GetAge now > 300) ∧
    (-2 ^ 63 ≤ now - msg.Timestamp → now - msg.Timestamp < 2 ^ 63 →
      msg.GetAge now = now - msg.Timestamp) := by
  refine ⟨?_, fun h1 h2 => wrapInt64_of_range _ h1 h2⟩
  rw [Decrypt_of_session c k now msg hsess, if_neg (by simpa using hmac)]
  constructor
  · intro h
    by_contra hage
    rw [if_neg hage] at h
    exact decrypt_tail_ne_timestamp c k msg.Payload h
  · intro h
    rw [if_pos h]

/-- C7 fails on the code at the timestamp `math.MinInt64`: the connected
responder, at clock 1793805148, is given a correctly MAC'd message stamped
-9223372036854775808.  The difference `now - msg.Timestamp` is far above 300,
but the `int64` subtraction of `GetAge` wraps to -9223372035060970660, the
check `GetAge() > 300` does not fire, and `Decrypt` returns the plaintext
instead of `ErrInvalidTimestamp`. -/
theorem decrypt_accepts_wrapped_age :
    (toyResponder false).HasSession toyKey ∧
    (toyData (-9223372036854775808) toySealed).HMAC
      = toyCrypto.hmacSha256 toyKey (macInput (toyData (-9223372036854775808) toySealed)) ∧
    -2 ^ 63 ≤ (toyData (-9223372036854775808) toySealed).Timestamp ∧
    (1793805148 : Int) - (toyData (-9223372036854775808) toySealed).Timestamp > 300 ∧
    (toyData (-9223372036854775808) toySealed).GetAge 1793805148 = -9223372035060970660 ∧
    (toyResponder false).Decrypt 1793805148 (toyData (-9223372036854775808) toySealed)
      = .ok [104, 105] := by
  refine ⟨by decide, rfl, by decide, by decide, by decide, by decide⟩

/-- C8 fails on the code at a timestamp in the future: the connected
responder, at clock 2000, is given a correctly MAC'd message stamped 3000,
1000 seconds ahead of its clock (age -1000, below -300).  The check has no
lower bound, so `Decrypt` does not return `ErrInvalidTimestamp` but the
plaintext. -/
theorem decrypt_accepts_future_timestamp :
    (toyResponder false).HasSession toyKey ∧
    (toyData 3000 toySealed).HMAC
      = toyCrypto.hmacSha256 toyKey (macInput (toyData 3000 toySealed)) ∧
    (toyData 3000 toySealed).GetAge 2000 = -1000 ∧
    (toyResponder false).Decrypt 2000 (toyData 3000 toySealed) = .ok [104, 105] := by
  refine ⟨by decide, rfl, by decide, by decide⟩

/-! ## C9: the pre-session guard -/

theorem New_fields {P : Crypto} (cfg : Config) (gen : Option P.PrivateKey) (c : Client P)
    (h : New P cfg gen = .ok c) :
    c.connected = false ∧ c.encryptor = none ∧ c.auth = none ∧ c.sessionKey = [] ∧
    c.useCompression = cfg.EnableCompression ∧
    c.compressor = (if cfg.EnableCompression then some { closed := false } else none) ∧
    c.decompressor = (if cfg.EnableCompression then some { closed := false } else none) ∧
    c.handshaker = NewManager P c.keyManager ∧
    c.keyManager.publicKey = P.publicKey c.keyManager.privateKey := by
  unfold New at h
  cases hpk : cfg.PrivateKey with
  | some keyBytes =>
    cases hp : P.newPrivateKey keyBytes with
    | none => simp [hpk, hp, orLibErr] at h
    | some priv =>
      cases hc : cfg.EnableCompression <;>
        simp only [hpk, hp, hc, orLibErr, Outcome.wrapErr_ok, Outcome.ok_bind, Outcome.pure_eq,
          Outcome.ok.injEq, Bool.false_eq_true, if_false, if_true] at h <;>
        subst h <;>
        exact ⟨rfl, rfl, rfl, rfl, rfl, rfl, rfl, rfl, rfl⟩
  | none =>
    cases gen with
    | none => simp [hpk, NewKeyManager, GenerateKeyPair, orLibErr] at h
    | some priv =>
      cases hc : cfg.EnableCompression <;>
        simp only [hpk, hc, NewKeyManager, GenerateKeyPair, orLibErr, Outcome.wrapErr_ok,
          Outcome.ok_bind, Outcome.pure_eq, Outcome.ok.injEq, Bool.false_eq_true, if_false,
          if_true] at h <;>
        subst h <;>
        exact ⟨rfl, rfl, rfl, rfl, rfl, rfl, rfl, rfl, rfl⟩

/-- `Close` clears the connected flag. -/
theorem Close_connected {P : Crypto} (c : Client P) : c.Close.connected = false := by
  unfold Client.Close
  cases c.compressor <;> cases c.decompressor <;> rfl

/-- `Close` leaves the keys, the session fields and the compression setting,
and closes the codec objects. -/
theorem Close_fields {P : Crypto} (c : Client P) :
    c.Close.keyManager = c.keyManager ∧ c.Close.handshaker = c.handshaker ∧
    c.Close.encryptor = c.encryptor ∧ c.Close.auth = c.auth ∧
    c.Close.sessionKey = c.sessionKey ∧ c.Close.useCompression = c.useCompression ∧
    c.Close.compressor = c.compressor.map zstd.Encoder.Close ∧
    c.Close.decompressor = c.decompressor.map zstd.Decoder.Close := by
  unfold Client.Close
  cases c.compressor <;> cases c.decompressor <;> exact ⟨rfl, rfl, rfl, rfl, rfl, rfl, rfl, rfl⟩

theorem Encrypt_not_connected {P : Crypto} (c : Client P) (now : Int) (rnd data : Bytes)
    (h : c.connected = false) : c.Encrypt now rnd data = .error .ErrNotConnected := by
  simp [Client.Encrypt, h]

theorem Decrypt_not_connected {P : Crypto} (c : Client P) (now : Int) (msg : Message)
    (h : c.connected = false) : c.Decrypt now msg = .error .ErrNotConnected := by
  simp [Client.Decrypt, h]

/-- C9: a client that is not connected answers `Encrypt` and `Decrypt` with
`ErrNotConnected`, whatever the input and whatever its encryptor and
authenticator pointers are (for nil pointers too: the answer is an error, not a
panic); that is the case of a client `New` has just built, whose pointers are
nil, and of every client after `Close`. -/
theorem pre_session_guard (P : Crypto) (c : Client P) (now : Int) (rnd data : Bytes)
    (msg : Message) :
    (c.IsConnected = false →
      c.Encrypt now rnd data = .error .ErrNotConnected ∧
      c.Decrypt now msg = .error .ErrNotConnected) ∧
    (∀ cfg gen, New P cfg gen = .ok c →
      c.encryptor = none ∧ c.auth = none ∧
      c.Encrypt now rnd data = .error .ErrNotConnected ∧
      c.Decrypt now msg = .error .ErrNotConnected) ∧
    (c.Close.IsConnected = false ∧
      c.Close.Encrypt now rnd data = .error .ErrNotConnected ∧
      c.Close.Decrypt now msg = .error .ErrNotConnected) := by
  refine ⟨fun h => ⟨Encrypt_not_connected c now rnd data h, Decrypt_not_connected c now msg h⟩,
    fun cfg gen h => ?_, Close_connected c,
    Encrypt_not_connected _ now rnd data (Close_connected c),
    Decrypt_not_connected _ now msg (Close_connected c)⟩
  obtain ⟨hconn, henc, hauth, _⟩ := New_fields cfg gen c h
  exact ⟨henc, hauth, Encrypt_not_connected c now rnd data hconn,
    Decrypt_not_connected c now msg hconn⟩

/-- C9 at a client just built in the concrete instance, and at the connected
responder after `Close`. -/
theorem pre_session_guard_witness :
    ((toyFresh 5 true).Encrypt 1000 toySealed [104, 105] = .error .ErrNotConnected ∧
      (toyFresh 5 true).Decrypt 1000 (toyData 1000 toySealed) = .error .ErrNotConnected) ∧
    ((toyResponder false).Close.Encrypt 1000 toySealed [104, 105] = .error .ErrNotConnected ∧
      (toyResponder false).Close.Decrypt 1000 (toyData 1000 toySealed)
        = .error .ErrNotConnected) :=
  ⟨((pre_session_guard toyCrypto (toyFresh 5 true) 1000 toySealed [104, 105]
      (toyData 1000 toySealed)).2.1 { PrivateKey := none, EnableCompression := true }
      (some (5 : Nat)) rfl).2.2,
   (pre_session_guard toyCrypto (toyResponder false) 1000 toySealed [104, 105]
      (toyData 1000 toySealed)).2.2.2⟩

/-! ## Setting up a session -/

/-- What `setupSession` returns and leaves: with a 32-byte key the session is
installed, with any other key only the sessionKey field is overwritten. -/
theorem setupSession_eq {P : Crypto} (c : Client P) (k : Bytes) :
    c.setupSession k =
      if k.length = KeySize then
        (.ok (), { c with sessionKey := k, encryptor := some { key := k },
                          auth := some (NewAuthenticator k), connected := true })
      else
        (.error (.wrap "failed to create encryptor"
          (.errorf "invalid key size: expected %d, got %d" [KeySize, k.length])),
         { c with sessionKey := k }) := by
  unfold Client.setupSession NewEncryptor
  by_cases h : k.length = KeySize
  · simp [h]
  · simp [h]

/-- A successful `setupSession` leaves a session under the key it was given
and does not touch the compression settings or the key pair. -/
theorem setupSession_ok {P : Crypto} (c c1 : Client P) (k : Bytes)
    (h : c.setupSession k = (.ok (), c1)) :
    c1.HasSession k ∧ c1.useCompression = c.useCompression ∧ c1.compressor = c.compressor ∧
      c1.decompressor = c.decompressor := by
  rw [setupSession_eq] at h
  by_cases hk : k.length = KeySize
  · rw [if_pos hk] at h
    cases h
    exact ⟨⟨rfl, rfl, hk, rfl, rfl⟩, rfl, rfl, rfl⟩
  · rw [if_neg hk] at h
    cases h

/-- A `setupSession` that does not succeed leaves the connected flag as it was. -/
theorem setupSession_connected_of_not_ok {P : Crypto} (c : Client P) (k : Bytes)
    (h : (c.setupSession k).1 ≠ .ok ()) : (c.setupSession k).2.connected = c.connected := by
  rw [setupSession_eq] at h ⊢
  by_cases hk : k.length = KeySize
  · rw [if_pos hk] at h
    exact absurd rfl h
  · rw [if_neg hk]

/-! ## C10: a failed handshake step -/

/-- C10, as the code has it: when `ProcessHandshake` or `CompleteHandshake`
returns an error, `IsConnected` afterwards is what it was before the call: a
client that was not connected stays disconnected, and a client that was
already connected stays connected. -/
theorem failed_handshake_keeps_flag (P : Crypto) (c : Client P) (now : Int) (msg : Message) :
    (∀ e, (c.ProcessHandshake now msg).1 = .error e →
      (c.ProcessHandshake now msg).2.IsConnected = c.IsConnected) ∧
    (∀ e, (c.CompleteHandshake msg).1 = .error e →
      (c.CompleteHandshake msg).2.IsConnected = c.IsConnected) ∧
    (c.IsConnected = false → ∀ e,
      ((c.ProcessHandshake now msg).1 = .error e →
        (c.ProcessHandshake now msg).2.IsConnected = false) ∧
      ((c.CompleteHandshake msg).1 = .error e →
        (c.CompleteHandshake msg).2.IsConnected = false)) := by
  have hP : ∀ e, (c.ProcessHandshake now msg).1 = .error e →
      (c.ProcessHandshake now msg).2.IsConnected = c.IsConnected := by
    intro e he
    unfold Client.ProcessHandshake at he ⊢
    cases hk : c.handshaker.ProcessHandshakeMessage msg with
    | error e1 => rfl
    | panic => rfl
    | ok k =>
      rw [hk] at he
      simp only at he ⊢
      rw [setupSession_eq] at he ⊢
      by_cases hlen : k.length = KeySize
      · rw [if_pos hlen] at he
        simp only at he
        cases he
      · rw [if_neg hlen]
        rfl
  have hC : ∀ e, (c.CompleteHandshake msg).1 = .error e →
      (c.CompleteHandshake msg).2.IsConnected = c.IsConnected := by
    intro e he
    unfold Client.CompleteHandshake at he ⊢
    cases hk : c.handshaker.ProcessHandshakeResponse msg with
    | error e1 => rfl
    | panic => rfl
    | ok k =>
      rw [hk] at he
      simp only at he ⊢
      exact setupSession_connected_of_not_ok c k (by rw [he]; simp)
  refine ⟨hP, hC, fun hc e => ⟨fun h => ?_, fun h => ?_⟩⟩
  · rw [hP e h, hc]
  · rw [hC e h, hc]

/-- C10 amended, at a client just built in the concrete instance: a data
message given to either handshake step is refused and the client stays
disconnected. -/
theorem failed_handshake_keeps_flag_witness :
    ((toyFresh 9 false).ProcessHandshake 1002 (toyData 1002 [])).2.IsConnected = false ∧
    ((toyFresh 5 false).CompleteHandshake (toyData 1002 [])).2.IsConnected = false :=
  ⟨((failed_handshake_keeps_flag toyCrypto (toyFresh 9 false) 1002 (toyData 1002 [])).2.2 rfl
      (.errorf "expected handshake message, got type %d" [2])).1 rfl,
   ((failed_handshake_keeps_flag toyCrypto (toyFresh 5 false) 1002 (toyData 1002 [])).2.2 rfl
      (.errorf "expected handshake response, got type %d" [2])).2 rfl⟩

/-- C10 as stated fails: the responder and the initiator of the concrete
handshake are connected; each is then given a data message (type 2) as a
handshake message; the step returns an error and `IsConnected` is still
true. -/
theorem failed_handshake_stays_connected :
    ((toyResponder false).ProcessHandshake 1002 (toyData 1002 [])).1
      = .error (.errorf "expected handshake message, got type %d" [2]) ∧
    ((toyResponder false).ProcessHandshake 1002 (toyData 1002 [])).2.IsConnected = true ∧
    ((toyInitiator false).CompleteHandshake (toyData 1002 [])).1
      = .error (.errorf "expected handshake response, got type %d" [2]) ∧
    ((toyInitiator false).CompleteHandshake (toyData 1002 [])).2.IsConnected = true := by
  refine ⟨rfl, rfl, rfl, rfl⟩

/-! ## C2: the channel round trip -/

/-- A session key returned by `ProcessHandshakeMessage` is derived from the
ECDH secret with the public key parsed from the payload. -/
theorem ProcessHandshakeMessage_ok_inv {P : Crypto} (m : Manager P) (msg : Message) (k : Bytes)
    (h : m.ProcessHandshakeMessage msg = .ok k) :
    ∃ pk secret, P.newPublicKey msg.Payload = some pk ∧
      P.ecdh m.keyManager.privateKey pk = some secret ∧
      k = P.hmacSha256 secret (bytesOf "voltage-session") := by
  unfold Manager.ProcessHandshakeMessage at h
  split at h
  · cases h
  · split at h
    · cases h
    · cases hp : P.newPublicKey msg.Payload with
      | none => simp [ParsePublicKey, orLibErr, hp] at h
      | some pk =>
        cases hs : P.ecdh m.keyManager.privateKey pk with
        | none => simp [ParsePublicKey, orLibErr, hp, KeyManager.DeriveSharedSecret, hs] at h
        | some secret =>
          simp only [ParsePublicKey, orLibErr, hp, KeyManager.DeriveSharedSecret, hs,
            Outcome.wrapErr_ok, Outcome.ok_bind, Outcome.pure_eq, Outcome.ok.injEq, DeriveKey] at h
          exact ⟨pk, secret, rfl, hs, h.symm⟩

/-- A session key returned by `ProcessHandshakeResponse` is derived from the
ECDH secret with the public key parsed from the payload. -/
theorem ProcessHandshakeResponse_ok_inv {P : Crypto} (m : Manager P) (msg : Message) (k : Bytes)
    (h : m.ProcessHandshakeResponse msg = .ok k) :
    ∃ pk secret, P.newPublicKey msg.Payload = some pk ∧
      P.ecdh m.keyManager.privateKey pk = some secret ∧
      k = P.hmacSha256 secret (bytesOf "voltage-session") := by
  unfold Manager.ProcessHandshakeResponse at h
  split at h
  · cases h
  · split at h
    · cases h
    · cases hp : P.newPublicKey msg.Payload with
      | none => simp [ParsePublicKey, orLibErr, hp] at h
      | some pk =>
        cases hs : P.ecdh m.keyManager.privateKey pk with
        | none => simp [ParsePublicKey, orLibErr, hp, KeyManager.DeriveSharedSecret, hs] at h
        | some secret =>
          simp only [ParsePublicKey, orLibErr, hp, KeyManager.DeriveSharedSecret, hs,
            Outcome.wrapErr_ok, Outcome.ok_bind, Outcome.pure_eq, Outcome.ok.injEq, DeriveKey] at h
          exact ⟨pk, secret, rfl, hs, h.symm⟩

/-- A successful `ProcessHandshake` installed the key its handshaker derived
and returned the handshaker's response. -/
theorem ProcessHandshake_ok {P : Crypto} (c c1 : Client P) (now : Int) (msg m2 : Message)
    (h : c.ProcessHandshake now msg = (.ok m2, c1)) :
    ∃ k, c.handshaker.ProcessHandshakeMessage msg = .ok k ∧ c1.HasSession k ∧
      c1.useCompression = c.useCompression ∧ c1.compressor = c.compressor ∧
      c1.decompressor = c.decompressor ∧
      c.handshaker.CreateHandshakeResponse now = .ok m2 := by
  unfold Client.ProcessHandshake at h
  cases hk : c.handshaker.ProcessHandshakeMessage msg with
  | error e => rw [hk] at h; cases h
  | panic => rw [hk] at h; cases h
  | ok k =>
    rw [hk] at h
    simp only at h
    rw [setupSession_eq] at h
    by_cases hlen : k.length = KeySize
    · rw [if_pos hlen] at h
      simp only [Prod.mk.injEq] at h
      obtain ⟨h1, h2⟩ := h
      subst h2
      exact ⟨k, rfl, ⟨rfl, rfl, hlen, rfl, rfl⟩, rfl, rfl, rfl, h1⟩
    · rw [if_neg hlen] at h
      cases h

/-- A successful `CompleteHandshake` installed the key its handshaker derived. -/
theorem CompleteHandshake_ok {P : Crypto} (c c1 : Client P) (msg : Message)
    (h : c.CompleteHandshake msg = (.ok (), c1)) :
    ∃ k, c.handshaker.ProcessHandshakeResponse msg = .ok k ∧ c1.HasSession k ∧
      c1.useCompression = c.useCompression ∧ c1.compressor = c.compressor ∧
      c1.decompressor = c.decompressor := by
  unfold Client.CompleteHandshake at h
  cases hk : c.handshaker.ProcessHandshakeResponse msg with
  | error e => rw [hk] at h; cases h
  | panic => rw [hk] at h; cases h
  | ok k =>
    rw [hk] at h
    exact ⟨k, rfl, setupSession_ok c c1 k h⟩

/-- The encryptor opens what it sealed: nonce, then the sealed bytes. -/
theorem Decrypt_sealed (P : Crypto) (k nonce x : Bytes) (hk : k.length = KeySize)
    (hn : nonce.length = NonceSize)
    (hgcm : P.gcmOpen k nonce (P.gcmSeal k nonce x) = some x) :
    Encryptor.Decrypt P (some { key := k }) (nonce ++ P.gcmSeal k nonce x) = .ok x := by
  have haes : aesNewCipher k = .ok () := by
    simp [aesNewCipher, hk, KeySize]
  have hl : ¬ (nonce ++ P.gcmSeal k nonce x).length < NonceSize := by
    rw [List.length_append, hn]
    omega
  have hl2 : NonceSize ≤ (nonce ++ P.gcmSeal k nonce x).length := by omega
  have htake : (nonce ++ P.gcmSeal k nonce x).take NonceSize = nonce := by
    rw [← hn, List.take_left]
  have hdrop : (nonce ++ P.gcmSeal k nonce x).drop NonceSize = P.gcmSeal k nonce x := by
    rw [← hn, List.drop_left]
  simp only [Encryptor.Decrypt, hl, if_false, deref, haes, Outcome.wrapErr_ok, Outcome.ok_bind,
    sliceTo, sliceFrom, hl2, if_true, htake, hdrop, hgcm, Outcome.pure_eq]

/-- `setupSession` assigns the session fields only. -/
theorem setupSession_fields {P : Crypto} (c : Client P) (k : Bytes) :
    (c.setupSession k).2.keyManager = c.keyManager ∧
    (c.setupSession k).2.handshaker = c.handshaker ∧
    (c.setupSession k).2.useCompression = c.useCompression ∧
    (c.setupSession k).2.compressor = c.compressor ∧
    (c.setupSession k).2.decompressor = c.decompressor := by
  rw [setupSession_eq]
  split <;> exact ⟨rfl, rfl, rfl, rfl, rfl⟩

/-- `ProcessHandshake` assigns the session fields only. -/
theorem ProcessHandshake_fields {P : Crypto} (c : Client P) (now : Int) (msg : Message) :
    (c.ProcessHandshake now msg).2.keyManager = c.keyManager ∧
    (c.ProcessHandshake now msg).2.handshaker = c.handshaker ∧
    (c.ProcessHandshake now msg).2.useCompression = c.useCompression ∧
    (c.ProcessHandshake now msg).2.compressor = c.compressor ∧
    (c.ProcessHandshake now msg).2.decompressor = c.decompressor := by
  unfold Client.ProcessHandshake
  cases hk : c.handshaker.ProcessHandshakeMessage msg with
  | error e => exact ⟨rfl, rfl, rfl, rfl, rfl⟩
  | panic => exact ⟨rfl, rfl, rfl, rfl, rfl⟩
  | ok k =>
    simp only
    rw [setupSession_eq]
    by_cases hlen : k.length = KeySize
    · rw [if_pos hlen]
      exact ⟨rfl, rfl, rfl, rfl, rfl⟩
    · rw [if_neg hlen]
      exact ⟨rfl, rfl, rfl, rfl, rfl⟩

/-- `CompleteHandshake` assigns the session fields only. -/
theorem CompleteHandshake_fields {P : Crypto} (c : Client P) (msg : Message) :
    (c.CompleteHandshake msg).2.keyManager = c.keyManager ∧
    (c.CompleteHandshake msg).2.handshaker = c.handshaker ∧
    (c.CompleteHandshake msg).2.useCompression = c.useCompression ∧
    (c.CompleteHandshake msg).2.compressor = c.compressor ∧
    (c.CompleteHandshake msg).2.decompressor = c.decompressor := by
  unfold Client.CompleteHandshake
  cases hk : c.handshaker.ProcessHandshakeResponse msg with
  | error e => exact ⟨rfl, rfl, rfl, rfl, rfl⟩
  | panic => exact ⟨rfl, rfl, rfl, rfl, rfl⟩
  | ok k => exact setupSession_fields c k

/-- No call changes the key pair, the handshaker or the compression setting,
or makes a codec pointer nil or non-nil; only `Close` touches the codec
objects. -/
theorem step_fields {P : Crypto} (c : Client P) (op : Op) :
    (c.step op).keyManager = c.keyManager ∧
    (c.step op).handshaker = c.handshaker ∧
    (c.step op).useCompression = c.useCompression ∧
    (c.step op).compressor.isSome = c.compressor.isSome ∧
    (c.step op).decompressor.isSome = c.decompressor.isSome ∧
    (op ≠ .Close → (c.step op).compressor = c.compressor ∧
      (c.step op).decompressor = c.decompressor) := by
  cases op with
  | StartHandshake now => exact ⟨rfl, rfl, rfl, rfl, rfl, fun _ => ⟨rfl, rfl⟩⟩
  | Encrypt now rnd data => exact ⟨rfl, rfl, rfl, rfl, rfl, fun _ => ⟨rfl, rfl⟩⟩
  | Decrypt now msg => exact ⟨rfl, rfl, rfl, rfl, rfl, fun _ => ⟨rfl, rfl⟩⟩
  | CreateHeartbeat now => exact ⟨rfl, rfl, rfl, rfl, rfl, fun _ => ⟨rfl, rfl⟩⟩
  | ProcessHandshake now msg =>
    obtain ⟨h1, h2, h3, h4, h5⟩ := ProcessHandshake_fields c now msg
    exact ⟨h1, h2, h3, by rw [← h4]; rfl, by rw [← h5]; rfl, fun _ => ⟨h4, h5⟩⟩
  | CompleteHandshake msg =>
    obtain ⟨h1, h2, h3, h4, h5⟩ := CompleteHandshake_fields c msg
    exact ⟨h1, h2, h3, by rw [← h4]; rfl, by rw [← h5]; rfl, fun _ => ⟨h4, h5⟩⟩
  | Close =>
    obtain ⟨h1, h2, _, _, _, h3, h4, h5⟩ := Close_fields c
    refine ⟨h1, h2, h3, ?_, ?_, fun h => absurd rfl h⟩
    · show c.Close.compressor.isSome = c.compressor.isSome
      rw [h4]
      cases c.compressor <;> rfl
    · show c.Close.decompressor.isSome = c.decompressor.isSome
      rw [h5]
      cases c.decompressor <;> rfl

/-- The same over a sequence of calls: the codec objects are untouched when the
sequence has no `Close`. -/
theorem run_fields {P : Crypto} (ops : List Op) :
    ∀ c : Client P,
      (c.run ops).keyManager = c.keyManager ∧
      (c.run ops).handshaker = c.handshaker ∧
      (c.run ops).useCompression = c.useCompression ∧
      (c.run ops).compressor.isSome = c.compressor.isSome ∧
      (c.run ops).decompressor.isSome = c.decompressor.isSome ∧
      (closeCount ops = 0 → (c.run ops).compressor = c.compressor ∧
        (c.run ops).decompressor = c.decompressor) := by
  induction ops with
  | nil => intro c; exact ⟨rfl, rfl, rfl, rfl, rfl, fun _ => ⟨rfl, rfl⟩⟩
  | cons op ops ih =>
    intro c
    obtain ⟨h1, h2, h3, h4, h5, h6⟩ := ih (c.step op)
    obtain ⟨g1, g2, g3, g4, g5, g6⟩ := step_fields c op
    refine ⟨h1.trans g1, h2.trans g2, h3.trans g3, h4.trans g4, h5.trans g5, fun hc => ?_⟩
    simp only [closeCount] at hc
    have hop : op ≠ .Close := by
      intro h
      rw [if_pos h] at hc
      omega
    have hrest : closeCount ops = 0 := by omega
    exact ⟨(h6 hrest).1.trans (g6 hop).1, (h6 hrest).2.trans (g6 hop).2⟩

/-- What `Encrypt` returns on a client that holds a session, when the random
source delivers a nonce. -/
theorem Encrypt_of_session {P : Crypto} (A : Client P) (k : Bytes) (now : Int) (rnd p : Bytes)
    (hA : A.HasSession k) (hrnd : NonceSize ≤ rnd.length) :
    A.Encrypt now rnd p = .ok
      { NewMessage now MsgTypeData (rnd.take NonceSize ++ P.gcmSeal k (rnd.take NonceSize)
          (if (A.useCompression && A.compressor.isSome) = true then P.zstdEncodeAll p else p)) with
        HMAC := (NewAuthenticator k).GenerateHMAC P (NewMessage now MsgTypeData
          (rnd.take NonceSize ++ P.gcmSeal k (rnd.take NonceSize)
            (if (A.useCompression && A.compressor.isSome) = true
              then P.zstdEncodeAll p else p))) } := by
  obtain ⟨hconn, _, hlen, henc, hauth⟩ := hA
  have hrn : ¬ rnd.length < NonceSize := Nat.not_lt.mpr hrnd
  have haes : aesNewCipher k = .ok () := by
    simp [aesNewCipher, hlen, KeySize]
  unfold Client.Encrypt
  cases hu : A.useCompression <;> cases hc : A.compressor <;>
    simp [hconn, deref, zstd.Encoder.EncodeAll, henc, Encryptor.Encrypt, haes, hrn, hauth]

/-- One direction of the channel: what a session holder encrypts, another
holder of the same session key, with the same compression setting and a
decoder that is not closed, decrypts to the same bytes. -/
theorem session_round_trip {P : Crypto} (A B : Client P) (k : Bytes) (t3 t4 : Int)
    (rnd p : Bytes) (flag : Bool) (hA : A.HasSession k) (hB : B.HasSession k)
    (hAf : (A.useCompression && A.compressor.isSome) = flag)
    (hBf : (B.useCompression && B.decompressor.isSome) = flag)
    (hBopen : flag = true → B.decompressor = some { closed := false })
    (hrnd : NonceSize ≤ rnd.length)
    (hage : -2 ^ 63 ≤ t4 - t3 ∧ t4 - t3 ≤ 300)
    (hgcm : ∀ key nonce x, P.gcmOpen key nonce (P.gcmSeal key nonce x) = some x)
    (hzstd : flag = true → ∀ x, P.zstdDecodeAll (P.zstdEncodeAll x) = some x) :
    ∃ msg, A.Encrypt t3 rnd p = .ok msg ∧ B.Decrypt t4 msg = .ok p := by
  have hlen : k.length = KeySize := hA.2.2.1
  have htake : (rnd.take NonceSize).length = NonceSize := by
    rw [List.length_take]
    omega
  refine ⟨_, Encrypt_of_session A k t3 rnd p hA hrnd, ?_⟩
  rw [Decrypt_of_session B k t4 _ hB, if_neg (fun h => h rfl), if_neg]
  · show ((Encryptor.Decrypt P (some { key := k })
        (rnd.take NonceSize ++ P.gcmSeal k (rnd.take NonceSize)
          (if (A.useCompression && A.compressor.isSome) = true
            then P.zstdEncodeAll p else p))).wrapErr
        "failed to decrypt" >>= _) = _
    rw [Decrypt_sealed P k _ _ hlen htake (hgcm _ _ _)]
    simp only [Outcome.wrapErr_ok, Outcome.ok_bind, hAf, hBf]
    cases flag with
    | true =>
      simp only [if_true, hBopen rfl, deref, Outcome.ok_bind, zstd.Decoder.DecodeAll,
        Bool.false_eq_true, if_false, hzstd rfl p, orLibErr, Outcome.wrapErr_ok]
    | false => simp only [Bool.false_eq_true, if_false]
  · show ¬ wrapInt64 (t4 - t3) > 300
    rw [wrapInt64_of_range _ hage.1 (by omega)]
    omega

/-- C2, as the code has it: the channel round trip.  Two clients are built by
`New` with the same compression setting and used through any sequences of
calls that, when compression is enabled, contain no `Close`; then they run the
three handshake steps with each other (`StartHandshake`, `ProcessHandshake`,
`CompleteHandshake`, all successful).  Given the P-256 facts that each public
key parses back from its encoding and that the two ECDH computations agree, a
random source that delivers a nonce, a decryption no more than 300 seconds
after the encryption, an AEAD that opens what it sealed and, when compression
is enabled, a codec that decodes what it encoded: what either client encrypts
the other decrypts to exactly the same bytes.  Both clients are connected and
hold the same session key. -/
theorem channel_round_trip (P : Crypto) (cfgA cfgB : Config) (genA genB : Option P.PrivateKey)
    (a b : Client P) (opsA opsB : List Op) (A1 B1 : Client P) (m1 m2 : Message)
    (t1 t2 t3 t4 : Int) (rnd p : Bytes)
    (ha : New P cfgA genA = .ok a) (hb : New P cfgB genB = .ok b)
    (hcomp : cfgA.EnableCompression = cfgB.EnableCompression)
    (hcloseA : cfgA.EnableCompression = true → closeCount opsA = 0)
    (hcloseB : cfgB.EnableCompression = true → closeCount opsB = 0)
    (h1 : (a.run opsA).StartHandshake t1 = .ok m1)
    (h2 : (b.run opsB).ProcessHandshake t2 m1 = (.ok m2, B1))
    (h3 : (a.run opsA).CompleteHandshake m2 = (.ok (), A1))
    (hparseA : P.newPublicKey (P.publicKeyBytes a.keyManager.publicKey)
      = some a.keyManager.publicKey)
    (hparseB : P.newPublicKey (P.publicKeyBytes b.keyManager.publicKey)
      = some b.keyManager.publicKey)
    (hecdh : P.ecdh a.keyManager.privateKey b.keyManager.publicKey
      = P.ecdh b.keyManager.privateKey a.keyManager.publicKey)
    (hrnd : NonceSize ≤ rnd.length)
    (hage : -2 ^ 63 ≤ t4 - t3 ∧ t4 - t3 ≤ 300)
    (hgcm : ∀ key nonce x, P.gcmOpen key nonce (P.gcmSeal key nonce x) = some x)
    (hzstd : cfgA.EnableCompression = true →
      ∀ x, P.zstdDecodeAll (P.zstdEncodeAll x) = some x) :
    (∃ msg, A1.Encrypt t3 rnd p = .ok msg ∧ B1.Decrypt t4 msg = .ok p) ∧
    (∃ msg, B1.Encrypt t3 rnd p = .ok msg ∧ A1.Decrypt t4 msg = .ok p) ∧
    A1.IsConnected = true ∧ B1.IsConnected = true ∧ A1.sessionKey = B1.sessionKey := by
  obtain ⟨_, _, _, _, hAu, hAc, hAd, hAh, _⟩ := New_fields cfgA genA a ha
  obtain ⟨_, _, _, _, hBu, hBc, hBd, hBh, _⟩ := New_fields cfgB genB b hb
  obtain ⟨rAk, rAh, rAu, rAc, rAd, rAo⟩ := run_fields opsA a
  obtain ⟨rBk, rBh, rBu, rBc, rBd, rBo⟩ := run_fields opsB b
  obtain ⟨kB, hkB, hsB, hBu1, hBc1, hBd1, hresp⟩ :=
    ProcessHandshake_ok (b.run opsB) B1 t2 m1 m2 h2
  obtain ⟨kA, hkA, hsA, hAu1, hAc1, hAd1⟩ := CompleteHandshake_ok (a.run opsA) A1 m2 h3
  have hAh0 : (a.run opsA).handshaker = NewManager P a.keyManager := rAh.trans hAh
  have hBh0 : (b.run opsB).handshaker = NewManager P b.keyManager := rBh.trans hBh
  have hm1 : m1.Payload = P.publicKeyBytes a.keyManager.publicKey := by
    simp only [Client.StartHandshake, hAh0, Manager.CreateHandshakeMessage, Outcome.pure_eq,
      Outcome.ok.injEq] at h1
    rw [← h1]
    rfl
  have hm2 : m2.Payload = P.publicKeyBytes b.keyManager.publicKey := by
    simp only [hBh0, Manager.CreateHandshakeResponse, Outcome.pure_eq,
      Outcome.ok.injEq] at hresp
    rw [← hresp]
    rfl
  obtain ⟨pkA, sB, hpA, hsecB, hkB2⟩ := ProcessHandshakeMessage_ok_inv _ m1 kB hkB
  obtain ⟨pkB, sA, hpB, hsecA, hkA2⟩ := ProcessHandshakeResponse_ok_inv _ m2 kA hkA
  rw [hm1, hparseA] at hpA
  rw [hm2, hparseB] at hpB
  cases hpA
  cases hpB
  rw [hBh0] at hsecB
  rw [hAh0] at hsecA
  have hs : sA = sB := by
    have h4 : P.ecdh a.keyManager.privateKey b.keyManager.publicKey = some sA := hsecA
    have h5 : P.ecdh b.keyManager.privateKey a.keyManager.publicKey = some sB := hsecB
    rw [hecdh, h5] at h4
    exact (Option.some.inj h4).symm
  have hk : kA = kB := by rw [hkA2, hkB2, hs]
  subst hk
  have hsomeA : ∀ flag : Bool,
      (if flag = true then some ({ closed := false } : zstd.Encoder) else none).isSome = flag := by
    intro flag
    cases flag <;> rfl
  have hsomeD : ∀ flag : Bool,
      (if flag = true then some ({ closed := false } : zstd.Decoder) else none).isSome = flag := by
    intro flag
    cases flag <;> rfl
  have hfA : (A1.useCompression && A1.compressor.isSome) = cfgA.EnableCompression := by
    rw [hAu1, hAc1, rAu, rAc, hAu, hAc, hsomeA, Bool.and_self]
  have hfAd : (A1.useCompression && A1.decompressor.isSome) = cfgA.EnableCompression := by
    rw [hAu1, hAd1, rAu, rAd, hAu, hAd, hsomeD, Bool.and_self]
  have hfB : (B1.useCompression && B1.compressor.isSome) = cfgA.EnableCompression := by
    rw [hBu1, hBc1, rBu, rBc, hBu, hBc, hsomeA, Bool.and_self, hcomp]
  have hfBd : (B1.useCompression && B1.decompressor.isSome) = cfgA.EnableCompression := by
    rw [hBu1, hBd1, rBu, rBd, hBu, hBd, hsomeD, Bool.and_self, hcomp]
  have hopenA : cfgA.EnableCompression = true → A1.decompressor = some { closed := false } := by
    intro hc
    rw [hAd1, (rAo (hcloseA hc)).2, hAd, if_pos hc]
  have hopenB : cfgA.EnableCompression = true → B1.decompressor = some { closed := false } := by
    intro hc
    have hcB : cfgB.EnableCompression = true := by rw [← hcomp]; exact hc
    rw [hBd1, (rBo (hcloseB hcB)).2, hBd, if_pos hcB]
  refine ⟨?_, ?_, hsA.1, hsB.1, ?_⟩
  · exact session_round_trip A1 B1 kA t3 t4 rnd p cfgA.EnableCompression hsA hsB hfA hfBd
      hopenB hrnd hage hgcm hzstd
  · exact session_round_trip B1 A1 kA t3 t4 rnd p cfgA.EnableCompression hsB hsA hfB hfAd
      hopenA hrnd hage hgcm hzstd
  · rw [hsA.2.1, hsB.2.1]

/-! ### The concrete instance meets the side conditions -/

theorem xor_xor_cancel (b d : UInt8) : (b ^^^ d) ^^^ d = b := by
  cases b with
  | mk x =>
    cases d with
    | mk y =>
      show UInt8.mk ((x ^^^ y) ^^^ y) = UInt8.mk x
      rw [BitVec.xor_assoc, BitVec.xor_self, BitVec.xor_zero]

/-- The stand-in AEAD opens what it sealed. -/
theorem toyOpen_toySeal (key nonce x : Bytes) :
    toyOpen key nonce (toySeal key nonce x) = some x := by
  have hlen : (toySeal key nonce x).length = x.length + TagSize := by
    simp [toySeal]
  have hbody : (toySeal key nonce x).take ((toySeal key nonce x).length - TagSize)
      = x.map (fun b => b ^^^ toyDigest (key ++ nonce)) := by
    rw [hlen, Nat.add_sub_cancel]
    unfold toySeal
    rw [List.take_append_of_le_length (by simp), List.take_of_length_le (by simp)]
  have htag : (toySeal key nonce x).drop ((toySeal key nonce x).length - TagSize)
      = List.replicate TagSize (toyDigest (key ++ nonce ++ x)) := by
    rw [hlen, Nat.add_sub_cancel]
    unfold toySeal
    have hl : (x.map (fun b => b ^^^ toyDigest (key ++ nonce))).length = x.length := by simp
    rw [← hl, List.drop_left]
  have hmap : (x.map (fun b => b ^^^ toyDigest (key ++ nonce))).map
      (fun b => b ^^^ toyDigest (key ++ nonce)) = x := by
    rw [List.map_map]
    conv_rhs => rw [← List.map_id x]
    apply List.map_congr_left
    intro b _
    exact xor_xor_cancel b _
  unfold toyOpen
  rw [if_neg (by rw [hlen]; omega)]
  simp only [hbody, hmap, htag, if_true]

/-- C2 amended, at the concrete handshake with compression enabled, after
earlier calls without `Close` (a heartbeat and a refused handshake message):
the initiator's message, encrypted at 3000, is decrypted by the responder at
3100, and the other way round. -/
theorem channel_round_trip_witness :
    (∃ msg, (toyInitiator true).Encrypt 3000 toySealed [104, 105] = .ok msg ∧
      (toyResponder true).Decrypt 3100 msg = .ok [104, 105]) ∧
    (∃ msg, (toyResponder true).Encrypt 3000 toySealed [104, 105] = .ok msg ∧
      (toyInitiator true).Decrypt 3100 msg = .ok [104, 105]) ∧
    (toyInitiator true).IsConnected = true ∧ (toyResponder true).IsConnected = true ∧
    (toyInitiator true).sessionKey = (toyResponder true).sessionKey :=
  channel_round_trip toyCrypto { PrivateKey := none, EnableCompression := true }
    { PrivateKey := none, EnableCompression := true } (some (5 : Nat)) (some (9 : Nat))
    (toyFresh 5 true) (toyFresh 9 true) [.CreateHeartbeat 900]
    [.ProcessHandshake 950 toyAck] (toyInitiator true) (toyResponder true)
    toyHello toyAck 1000 1001 3000 3100 toySealed [104, 105]
    rfl rfl rfl (fun _ => rfl) (fun _ => rfl) rfl rfl rfl rfl rfl rfl (by decide) (by decide)
    toyOpen_toySeal (fun _ _ => rfl)

/-- C2 as stated fails: a responder with compression answers a handshake, is
closed, and answers the handshake of the initiator again, so the two clients
completed the three-step handshake with each other, are connected and hold
the same session key; the concrete AEAD and codec undo their own output; yet
what the initiator encrypts at 3000 the responder, at 3100, does not decrypt:
its decoder was closed by `Close`, and `Decrypt` returns the error "failed to
decompress". -/
theorem round_trip_fails_after_close :
    New toyCrypto { PrivateKey := none, EnableCompression := true } (some (9 : Nat))
      = .ok (toyFresh 9 true) ∧
    (toyFresh 5 true).StartHandshake 1000 = .ok toyHello ∧
    ((toyFresh 9 true).run [.ProcessHandshake 1001 toyHello, .Close]).ProcessHandshake
      1001 toyHello = (.ok toyAck, toyReopened) ∧
    (toyFresh 5 true).CompleteHandshake toyAck = (.ok (), toyInitiator true) ∧
    (toyInitiator true).IsConnected = true ∧ toyReopened.IsConnected = true ∧
    (toyInitiator true).sessionKey = toyReopened.sessionKey ∧
    (toyInitiator true).useCompression = toyReopened.useCompression ∧
    (∀ x, toyCrypto.zstdDecodeAll (toyCrypto.zstdEncodeAll x) = some x) ∧
    (∃ msg, (toyInitiator true).Encrypt 3000 toySealed [104, 105] = .ok msg ∧
      toyReopened.Decrypt 3100 msg
        = .error (.wrap "failed to decompress" (.lib "zstd: decoder used after Close"))) := by
  refine ⟨rfl, rfl, rfl, rfl, rfl, rfl, rfl, rfl, fun _ => rfl, ?_⟩
  have henc := Encrypt_of_session (toyInitiator true) toyKey 3000 toySealed [104, 105]
    (by decide) (by decide)
  exact ⟨_, henc, by decide⟩

/-! ## C11: when the connected flag is raised -/

/-- A step that raises the connected flag is a handshake step whose handshaker
derived a key, and that key is installed afterwards. -/
theorem step_connects {P : Crypto} (c : Client P) (op : Op) (h0 : c.connected = false)
    (h1 : (c.step op).connected = true) :
    (∃ now msg k, op = .ProcessHandshake now msg ∧
      c.handshaker.ProcessHandshakeMessage msg = .ok k ∧
      (c.ProcessHandshake now msg).1 = c.handshaker.CreateHandshakeResponse now ∧
      (c.step op).HasSession k) ∨
    (∃ msg k, op = .CompleteHandshake msg ∧
      c.handshaker.ProcessHandshakeResponse msg = .ok k ∧
      (c.CompleteHandshake msg).1 = .ok () ∧
      (c.step op).HasSession k) := by
  cases op with
  | StartHandshake now => simp [Client.step, h0] at h1
  | Encrypt now rnd data => simp [Client.step, h0] at h1
  | Decrypt now msg => simp [Client.step, h0] at h1
  | CreateHeartbeat now => simp [Client.step, h0] at h1
  | Close => simp [Client.step, Close_connected] at h1
  | ProcessHandshake now msg =>
    left
    simp only [Client.step] at h1 ⊢
    cases hk : c.handshaker.ProcessHandshakeMessage msg with
    | error e => simp [Client.ProcessHandshake, hk, h0] at h1
    | panic => simp [Client.ProcessHandshake, hk, h0] at h1
    | ok k =>
      by_cases hlen : k.length = KeySize
      · have hstep : c.ProcessHandshake now msg
            = (c.handshaker.CreateHandshakeResponse now,
               { c with sessionKey := k, encryptor := some { key := k },
                        auth := some (NewAuthenticator k), connected := true }) := by
          unfold Client.ProcessHandshake
          rw [hk]
          simp only
          rw [setupSession_eq, if_pos hlen]
        refine ⟨now, msg, k, rfl, hk, ?_, ?_⟩
        · rw [hstep]
        · rw [hstep]
          exact ⟨rfl, rfl, hlen, rfl, rfl⟩
      · unfold Client.ProcessHandshake at h1
        rw [hk] at h1
        simp only at h1
        rw [setupSession_eq, if_neg hlen] at h1
        simp [h0] at h1
  | CompleteHandshake msg =>
    right
    simp only [Client.step] at h1 ⊢
    cases hk : c.handshaker.ProcessHandshakeResponse msg with
    | error e => simp [Client.CompleteHandshake, hk, h0] at h1
    | panic => simp [Client.CompleteHandshake, hk, h0] at h1
    | ok k =>
      have hstep : c.CompleteHandshake msg = c.setupSession k := by
        unfold Client.CompleteHandshake
        rw [hk]
      rw [hstep, setupSession_eq] at h1
      by_cases hlen : k.length = KeySize
      · refine ⟨msg, k, rfl, hk, ?_, ?_⟩
        · rw [hstep, setupSession_eq, if_pos hlen]
        · rw [hstep, setupSession_eq, if_pos hlen]
          exact ⟨rfl, rfl, hlen, rfl, rfl⟩
      · rw [if_neg hlen] at h1
        simp [h0] at h1

/-- Only `Close` lowers the connected flag. -/
theorem step_keeps_connected {P : Crypto} (c : Client P) (op : Op) (h0 : c.connected = true)
    (hop : op ≠ .Close) : (c.step op).connected = true := by
  cases op with
  | StartHandshake now => exact h0
  | Encrypt now rnd data => exact h0
  | Decrypt now msg => exact h0
  | CreateHeartbeat now => exact h0
  | Close => exact absurd rfl hop
  | ProcessHandshake now msg =>
    simp only [Client.step]
    unfold Client.ProcessHandshake
    cases hk : c.handshaker.ProcessHandshakeMessage msg with
    | error e => exact h0
    | panic => exact h0
    | ok k =>
      simp only
      rw [setupSession_eq]
      by_cases hlen : k.length = KeySize
      · rw [if_pos hlen]
      · rw [if_neg hlen]
        exact h0
  | CompleteHandshake msg =>
    simp only [Client.step]
    unfold Client.CompleteHandshake
    cases hk : c.handshaker.ProcessHandshakeResponse msg with
    | error e => exact h0
    | panic => exact h0
    | ok k =>
      simp only
      rw [setupSession_eq]
      by_cases hlen : k.length = KeySize
      · rw [if_pos hlen]
      · rw [if_neg hlen]
        exact h0

/-- The flag is raised at most once, plus once for every `Close`. -/
theorem connectCount_le {P : Crypto} (ops : List Op) :
    ∀ c : Client P, c.connectCount ops
      ≤ (if c.connected = true then 0 else 1) + closeCount ops := by
  induction ops with
  | nil => intro c; simp [Client.connectCount]
  | cons op ops ih =>
    intro c
    have hrec := ih (c.step op)
    simp only [Client.connectCount, closeCount]
    by_cases hc : c.connected = true
    · by_cases hop : op = .Close
      · subst hop
        simp only [hc, Bool.true_eq_false, false_and, if_false, if_true] at hrec ⊢
        split at hrec <;> omega
      · have hs := step_keeps_connected c op hc hop
        simp only [hs, hc, if_true, Bool.true_eq_false, false_and, if_false, hop] at hrec ⊢
        omega
    · have hcf : c.connected = false := by
        cases h : c.connected
        · rfl
        · exact absurd h hc
      by_cases hs : (c.step op).connected = true
      · simp only [hs, hcf, if_true, and_self, Bool.false_eq_true, if_false] at hrec ⊢
        split <;> omega
      · simp only [hs, hcf, and_false, if_false, Bool.false_eq_true] at hrec ⊢
        split <;> omega

/-- C11, as the code has it: over every sequence of calls on one client, the
connected flag goes from false to true only in a `ProcessHandshake` or
`CompleteHandshake` call that derived a session key and installed it, and
from true to false only in `Close`; it is raised at most once as long as
`Close` is not called, and at most once more for every `Close`, after which a
new successful handshake connects the client again. -/
theorem connect_transitions (P : Crypto) (c : Client P) (ops : List Op) :
    c.connectCount ops ≤ (if c.connected = true then 0 else 1) + closeCount ops ∧
    (closeCount ops = 0 → c.connectCount ops ≤ 1) ∧
    (∀ op, c.connected = false → (c.step op).connected = true →
      (∃ now msg k, op = .ProcessHandshake now msg ∧
        c.handshaker.ProcessHandshakeMessage msg = .ok k ∧
        (c.ProcessHandshake now msg).1 = c.handshaker.CreateHandshakeResponse now ∧
        (c.step op).HasSession k) ∨
      (∃ msg k, op = .CompleteHandshake msg ∧
        c.handshaker.ProcessHandshakeResponse msg = .ok k ∧
        (c.CompleteHandshake msg).1 = .ok () ∧
        (c.step op).HasSession k)) ∧
    (∀ op, c.connected = true → (c.step op).connected = false → op = .Close) := by
  have hle := connectCount_le ops c
  refine ⟨hle, fun h0 => ?_, fun op h0 h1 => step_connects c op h0 h1, fun op h1 h0 => ?_⟩
  · rw [h0] at hle
    split at hle <;> omega
  · by_contra hop
    rw [step_keeps_connected c op h1 hop] at h0
    cases h0

/-- C11 amended, at a client just built in the concrete instance: it answers
the handshake, encrypts, and answers the same handshake message again; the
flag is raised once. -/
theorem connect_transitions_witness :
    (toyFresh 9 false).connectCount
      [.ProcessHandshake 1001 toyHello, .Encrypt 3000 toySealed [104, 105],
       .ProcessHandshake 1001 toyHello] = 1 ∧
    (toyFresh 9 false).connectCount
      [.ProcessHandshake 1001 toyHello, .Encrypt 3000 toySealed [104, 105],
       .ProcessHandshake 1001 toyHello] ≤ 1 :=
  ⟨by decide,
   (connect_transitions toyCrypto (toyFresh 9 false)
      [.ProcessHandshake 1001 toyHello, .Encrypt 3000 toySealed [104, 105],
       .ProcessHandshake 1001 toyHello]).2.1 (by decide)⟩

/-- C11 as stated fails: a client just built answers a handshake message
(connected), is closed (disconnected), and answers the handshake message
again (connected): the flag goes from false to true twice. -/
theorem connects_twice_after_close :
    (toyFresh 9 false).connected = false ∧
    ((toyFresh 9 false).run [.ProcessHandshake 1001 toyHello]).connected = true ∧
    ((toyFresh 9 false).run [.ProcessHandshake 1001 toyHello, .Close]).connected = false ∧
    ((toyFresh 9 false).run
      [.ProcessHandshake 1001 toyHello, .Close, .ProcessHandshake 1001 toyHello]).connected
        = true ∧
    (toyFresh 9 false).connectCount
      [.ProcessHandshake 1001 toyHello, .Close, .ProcessHandshake 1001 toyHello] = 2 := by
  refine ⟨rfl, by decide, by decide, by decide, by decide⟩

/-! ## C12: heartbeats -/

/-- C12: `CreateHeartbeat` returns a message of type Heartbeat (3) with
protocol version 1.  For a client that holds a session under k the MAC field
is HMAC-SHA256 under k of version, type, timestamp and payload, so
`VerifyHMAC` of an authenticator with the same key accepts the message; for a
client that is not connected the MAC field is empty. -/
theorem heartbeat_authentication (P : Crypto) (c : Client P) (now : Int) :
    (∀ k, c.HasSession k → ∃ msg, c.CreateHeartbeat now = .ok msg ∧
      msg.Type_ = MsgTypeHeartbeat ∧ msg.Type_ = 3 ∧ msg.Version = 1 ∧
      msg.Timestamp = now ∧ msg.Payload = bytesOf "ping" ∧
      msg.HMAC = P.hmacSha256 k (macInput msg) ∧
      (NewAuthenticator k).VerifyHMAC P msg = true) ∧
    (c.IsConnected = false → ∃ msg, c.CreateHeartbeat now = .ok msg ∧
      msg.Type_ = MsgTypeHeartbeat ∧ msg.Type_ = 3 ∧ msg.Version = 1 ∧
      msg.Timestamp = now ∧ msg.Payload = bytesOf "ping" ∧
      msg.HMAC = []) := by
  constructor
  · intro k ⟨hconn, _, _, _, hauth⟩
    refine ⟨{ NewMessage now MsgTypeHeartbeat (bytesOf "ping") with
      HMAC := (NewAuthenticator k).GenerateHMAC P
        (NewMessage now MsgTypeHeartbeat (bytesOf "ping")) }, ?_, rfl, rfl, rfl, rfl, rfl, rfl,
      (VerifyHMAC_iff P _ _).mpr rfl⟩
    simp only [Client.CreateHeartbeat, hconn, if_true, hauth, deref, Outcome.ok_bind,
      Outcome.pure_eq]
  · intro hconn
    refine ⟨NewMessage now MsgTypeHeartbeat (bytesOf "ping"), ?_, rfl, rfl, rfl, rfl, rfl, rfl⟩
    have hc : c.connected = false := hconn
    simp only [Client.CreateHeartbeat, hc, Bool.false_eq_true, if_false, Outcome.pure_eq]

/-- C12 at the concrete initiator after the handshake and at a client just
built. -/
theorem heartbeat_authentication_witness :
    (∃ msg, (toyInitiator false).CreateHeartbeat 2000 = .ok msg ∧
      msg.Type_ = MsgTypeHeartbeat ∧ msg.Type_ = 3 ∧ msg.Version = 1 ∧
      msg.Timestamp = 2000 ∧ msg.Payload = bytesOf "ping" ∧
      msg.HMAC = toyCrypto.hmacSha256 toyKey (macInput msg) ∧
      (NewAuthenticator toyKey).VerifyHMAC toyCrypto msg = true) ∧
    (∃ msg, (toyFresh 5 false).CreateHeartbeat 2000 = .ok msg ∧
      msg.Type_ = MsgTypeHeartbeat ∧ msg.Type_ = 3 ∧ msg.Version = 1 ∧
      msg.Timestamp = 2000 ∧ msg.Payload = bytesOf "ping" ∧
      msg.HMAC = []) :=
  ⟨(heartbeat_authentication toyCrypto (toyInitiator false) 2000).1 toyKey (by decide),
   (heartbeat_authentication toyCrypto (toyFresh 5 false) 2000).2 rfl⟩

/-! ## C13: the checks of the handshake steps -/

theorem VerifyHMAC_eq_false (P : Crypto) (a : Authenticator) (msg : Message)
    (h : msg.HMAC ≠ a.GenerateHMAC P msg) : a.VerifyHMAC P msg = false := by
  cases hb : a.VerifyHMAC P msg
  · rfl
  · exact absurd ((VerifyHMAC_iff P a msg).mp hb) h

/-- C13: `CompleteHandshake` answers every message whose type is not Ack (5)
with an error, derives no key and leaves the client as it was, whatever the
MAC and the payload; `ProcessHandshake` does the same for every message whose
type is not Handshake (1); and with the handshake key SHA-256 of
"voltage-handshake", which every client built by `New` uses, a message of the
right type whose MAC is not the HMAC under that key is answered with
`ErrInvalidSignature`. -/
theorem handshake_type_and_mac_checks (P : Crypto) (c : Client P) (now : Int) (msg : Message) :
    (msg.Type_ ≠ MsgTypeAck →
      c.handshaker.ProcessHandshakeResponse msg
        = .error (.errorf "expected handshake response, got type %d" [msg.Type_.toNat]) ∧
      c.CompleteHandshake msg
        = (.error (.errorf "expected handshake response, got type %d" [msg.Type_.toNat]), c)) ∧
    (msg.Type_ ≠ MsgTypeHandshake →
      c.handshaker.ProcessHandshakeMessage msg
        = .error (.errorf "expected handshake message, got type %d" [msg.Type_.toNat]) ∧
      c.ProcessHandshake now msg
        = (.error (.errorf "expected handshake message, got type %d" [msg.Type_.toNat]), c)) ∧
    (c.handshaker.auth = NewAuthenticator (P.sha256 (bytesOf "voltage-handshake")) →
      msg.HMAC ≠ P.hmacSha256 (P.sha256 (bytesOf "voltage-handshake")) (macInput msg) →
      (msg.Type_ = MsgTypeAck → c.CompleteHandshake msg = (.error .ErrInvalidSignature, c)) ∧
      (msg.Type_ = MsgTypeHandshake →
        c.ProcessHandshake now msg = (.error .ErrInvalidSignature, c))) ∧
    (∀ cfg gen, New P cfg gen = .ok c →
      c.handshaker.auth = NewAuthenticator (P.sha256 (bytesOf "voltage-handshake"))) ∧
    MsgTypeAck = 5 ∧ MsgTypeHandshake = 1 := by
  refine ⟨fun hty => ?_, fun hty => ?_, fun hkey hmac => ⟨fun hty => ?_, fun hty => ?_⟩,
    fun cfg gen hnew => ?_, rfl, rfl⟩
  · have h : c.handshaker.ProcessHandshakeResponse msg
        = .error (.errorf "expected handshake response, got type %d" [msg.Type_.toNat]) := by
      simp only [Manager.ProcessHandshakeResponse, hty, ne_eq, not_false_eq_true, if_true]
    exact ⟨h, by simp only [Client.CompleteHandshake, h]⟩
  · have h : c.handshaker.ProcessHandshakeMessage msg
        = .error (.errorf "expected handshake message, got type %d" [msg.Type_.toNat]) := by
      simp only [Manager.ProcessHandshakeMessage, hty, ne_eq, not_false_eq_true, if_true]
    exact ⟨h, by simp only [Client.ProcessHandshake, h]⟩
  · have hv : c.handshaker.auth.VerifyHMAC P msg = false :=
      VerifyHMAC_eq_false P _ msg (by rw [hkey]; exact hmac)
    have h : c.handshaker.ProcessHandshakeResponse msg = .error .ErrInvalidSignature := by
      simp only [Manager.ProcessHandshakeResponse, hty, ne_eq, not_true_eq_false, if_false, hv,
        Bool.not_false, if_true]
    simp only [Client.CompleteHandshake, h]
  · have hv : c.handshaker.auth.VerifyHMAC P msg = false :=
      VerifyHMAC_eq_false P _ msg (by rw [hkey]; exact hmac)
    have h : c.handshaker.ProcessHandshakeMessage msg = .error .ErrInvalidSignature := by
      simp only [Manager.ProcessHandshakeMessage, hty, ne_eq, not_true_eq_false, if_false, hv,
        Bool.not_false, if_true]
    simp only [Client.ProcessHandshake, h]
  · obtain ⟨_, _, _, _, _, _, _, hh, _⟩ := New_fields cfg gen c hnew
    rw [hh]
    rfl

/-- C13 at clients just built in the concrete instance: the handshake message
(type 1, valid MAC, valid public key) given to `CompleteHandshake`, the
answer (type 5) given to `ProcessHandshake`, and the answer with an all-zero
MAC field given to `CompleteHandshake`. -/
theorem handshake_type_and_mac_checks_witness :
    (toyFresh 5 false).CompleteHandshake toyHello
      = (.error (.errorf "expected handshake response, got type %d" [1]), toyFresh 5 false) ∧
    (toyFresh 9 false).ProcessHandshake 1001 toyAck
      = (.error (.errorf "expected handshake message, got type %d" [5]), toyFresh 9 false) ∧
    (toyFresh 5 false).CompleteHandshake { toyAck with HMAC := List.replicate 32 0 }
      = (.error .ErrInvalidSignature, toyFresh 5 false) :=
  ⟨((handshake_type_and_mac_checks toyCrypto (toyFresh 5 false) 1001 toyHello).1
      (by decide)).2,
   ((handshake_type_and_mac_checks toyCrypto (toyFresh 9 false) 1001 toyAck).2.1
      (by decide)).2,
   ((handshake_type_and_mac_checks toyCrypto (toyFresh 5 false) 1001
      { toyAck with HMAC := List.replicate 32 0 }).2.2.1 rfl (by decide)).1 rfl⟩

/-! ## C14: structural validity -/

theorem uint8_eq_iff (a b : UInt8) : a = b ↔ a.toNat = b.toNat :=
  ⟨fun h => by rw [h], fun h => UInt8.ext h⟩

/-- C14: `IsValid` holds exactly when the version is 1, the type is one of the
five known values 1..5 and the MAC field has exactly 32 bytes; it does not
depend on the payload, the timestamp or the content of the MAC field. -/
theorem isValid_iff (m : Message) :
    (m.IsValid = true ↔
      m.Version = 1 ∧
      (m.Type_ = 1 ∨ m.Type_ = 2 ∨ m.Type_ = 3 ∨ m.Type_ = 4 ∨ m.Type_ = 5) ∧
      m.HMAC.length = 32) ∧
    (∀ (ts : Int) (payload mac : Bytes), mac.length = m.HMAC.length →
      ({ m with Timestamp := ts, Payload := payload, HMAC := mac } : Message).IsValid
        = m.IsValid) ∧
    ProtocolVersion = 1 ∧ MsgTypeHandshake = 1 ∧ MsgTypeData = 2 ∧ MsgTypeHeartbeat = 3 ∧
      MsgTypeError = 4 ∧ MsgTypeAck = 5 := by
  refine ⟨?_, fun ts payload mac hmac => ?_, rfl, rfl, rfl, rfl, rfl, rfl⟩
  · have hrange : (m.Type_ ≥ MsgTypeHandshake ∧ m.Type_ ≤ MsgTypeAck) ↔
        (m.Type_ = 1 ∨ m.Type_ = 2 ∨ m.Type_ = 3 ∨ m.Type_ = 4 ∨ m.Type_ = 5) := by
      rw [ge_iff_le, UInt8.le_def, UInt8.le_def, uint8_eq_iff _ 1, uint8_eq_iff _ 2,
        uint8_eq_iff _ 3, uint8_eq_iff _ 4, uint8_eq_iff _ 5]
      show (1 ≤ m.Type_.toNat ∧ m.Type_.toNat ≤ 5) ↔ (m.Type_.toNat = 1 ∨ m.Type_.toNat = 2 ∨
        m.Type_.toNat = 3 ∨ m.Type_.toNat = 4 ∨ m.Type_.toNat = 5)
      omega
    simp only [Message.IsValid, Bool.and_eq_true, beq_iff_eq, decide_eq_true_eq, HMACSize,
      ProtocolVersion, and_assoc]
    rw [← hrange]
    tauto
  · simp only [Message.IsValid, hmac]

/-- C14 at concrete messages: the handshake message is valid; type 6 and a
31-byte MAC field are not. -/
theorem isValid_iff_witness :
    toyHello.IsValid = true ∧
    ¬ ({ toyHello with Type_ := 6 } : Message).IsValid = true ∧
    ¬ ({ toyHello with HMAC := List.replicate 31 0 } : Message).IsValid = true :=
  ⟨(isValid_iff toyHello).1.mpr (by decide),
   fun h => absurd ((isValid_iff { toyHello with Type_ := 6 }).1.mp h) (by decide),
   fun h => absurd ((isValid_iff { toyHello with HMAC := List.replicate 31 0 }).1.mp h)
     (by decide)⟩

/-! ## C15: encoding, then decoding -/

/-- A source no longer than the destination is copied in front of the
destination's remaining bytes. -/
theorem copy_zeros_of_le (n : Nat) (src : Bytes) (h : src.length ≤ n) :
    copy (zeros n) src = src ++ zeros (n - src.length) := by
  simp only [copy, zeros_length]
  rw [List.take_of_length_le h]
  simp [zeros, List.drop_replicate]

/-- Decoding what `Marshal` returns gives the message back, with the MAC field
of the wire in place of the HMAC slice. -/
theorem Unmarshal_Marshal (m : Message) (hpay : m.Payload.length < 2 ^ 32)
    (hts1 : -2 ^ 63 ≤ m.Timestamp) (hts2 : m.Timestamp < 2 ^ 63) :
    ∃ buf, m.Marshal = .ok buf ∧
      UnmarshalMessage buf = .ok { m with HMAC := copy (zeros HMACSize) m.HMAC } := by
  refine ⟨_, Marshal_eq m, ?_⟩
  have hmac : (copy (zeros HMACSize) m.HMAC).length = 32 := by
    rw [copy_length, zeros_length, HMACSize]
  have hfront : ([m.Version, m.Type_] ++ bigEndian64 (toUint64 m.Timestamp)
      ++ bigEndian32 (m.Payload.length % 2 ^ 32)).length = 14 := by
    simp [bigEndian64, bigEndian32]
  have hall : ([m.Version, m.Type_] ++ bigEndian64 (toUint64 m.Timestamp)
      ++ bigEndian32 (m.Payload.length % 2 ^ 32) ++ m.Payload
      ++ copy (zeros HMACSize) m.HMAC).length = 14 + m.Payload.length + 32 := by
    rw [List.length_append, List.length_append, hfront, hmac]
  have hpl : payloadLenField ([m.Version, m.Type_] ++ bigEndian64 (toUint64 m.Timestamp)
      ++ bigEndian32 (m.Payload.length % 2 ^ 32) ++ m.Payload ++ copy (zeros HMACSize) m.HMAC)
      = m.Payload.length := by
    simp only [payloadLenField, bigEndian64, bigEndian32, List.cons_append, List.nil_append,
      List.getD_cons_succ, List.getD_cons_zero, byte_toNat]
    omega
  have hts : timestampField ([m.Version, m.Type_] ++ bigEndian64 (toUint64 m.Timestamp)
      ++ bigEndian32 (m.Payload.length % 2 ^ 32) ++ m.Payload ++ copy (zeros HMACSize) m.HMAC)
      = toUint64 m.Timestamp := by
    have hlt := toUint64_lt m.Timestamp
    simp only [timestampField, bigEndian64, List.cons_append, List.nil_append,
      List.getD_cons_succ, List.getD_cons_zero, byte_toNat]
    omega
  have hpayload : (List.drop 14 ([m.Version, m.Type_] ++ bigEndian64 (toUint64 m.Timestamp)
      ++ bigEndian32 (m.Payload.length % 2 ^ 32) ++ m.Payload
      ++ copy (zeros HMACSize) m.HMAC)).take m.Payload.length = m.Payload := by
    rw [List.append_assoc, ← hfront, List.drop_left, List.take_left]
  have htail : (List.drop (14 + m.Payload.length) ([m.Version, m.Type_]
      ++ bigEndian64 (toUint64 m.Timestamp)
      ++ bigEndian32 (m.Payload.length % 2 ^ 32) ++ m.Payload
      ++ copy (zeros HMACSize) m.HMAC)).take 32 = copy (zeros HMACSize) m.HMAC := by
    have hl : ([m.Version, m.Type_] ++ bigEndian64 (toUint64 m.Timestamp)
        ++ bigEndian32 (m.Payload.length % 2 ^ 32) ++ m.Payload).length
          = 14 + m.Payload.length := by
      rw [List.length_append, hfront]
    rw [← hl, List.drop_left, List.take_of_length_le (by omega)]
  rw [UnmarshalMessage_eq, if_neg (by omega), hpl, if_neg (by omega), hts, hpayload, htail,
    toInt64_toUint64 _ hts1 hts2]
  rfl

/-- C15: for a message whose payload is shorter than `2 ^ 32` bytes (and whose
timestamp is an `int64`, negative ones included), decoding the bytes of
`Marshal` succeeds and returns the same version, type, timestamp and payload;
with a MAC field of exactly 32 bytes it returns the message itself; with a
shorter MAC field, the absent MAC of a pre-session heartbeat for one, the
decoded MAC is the message's MAC padded with zero bytes to 32, and the round
trip does not return the message. -/
theorem codec_round_trip (m : Message) (hpay : m.Payload.length < 2 ^ 32)
    (hts1 : -2 ^ 63 ≤ m.Timestamp) (hts2 : m.Timestamp < 2 ^ 63) :
    ∃ buf decoded, m.Marshal = .ok buf ∧ UnmarshalMessage buf = .ok decoded ∧
      decoded.Version = m.Version ∧ decoded.Type_ = m.Type_ ∧
      decoded.Timestamp = m.Timestamp ∧ decoded.Payload = m.Payload ∧
      (m.HMAC.length = 32 → decoded = m) ∧
      (m.HMAC.length < 32 →
        decoded.HMAC = m.HMAC ++ zeros (32 - m.HMAC.length) ∧ decoded.HMAC.length = 32 ∧
        decoded ≠ m) := by
  obtain ⟨buf, hm, hu⟩ := Unmarshal_Marshal m hpay hts1 hts2
  refine ⟨buf, _, hm, hu, rfl, rfl, rfl, rfl, fun h32 => ?_, fun hlt => ?_⟩
  · show ({ m with HMAC := copy (zeros HMACSize) m.HMAC } : Message) = m
    rw [copy_of_length_eq _ _ (by rw [zeros_length]; exact h32)]
  · have hpad : copy (zeros HMACSize) m.HMAC = m.HMAC ++ zeros (32 - m.HMAC.length) :=
      copy_zeros_of_le 32 m.HMAC (by omega)
    refine ⟨hpad, ?_, fun heq => ?_⟩
    · show (copy (zeros HMACSize) m.HMAC).length = 32
      rw [copy_length, zeros_length, HMACSize]
    · have hl : (copy (zeros HMACSize) m.HMAC).length = m.HMAC.length :=
        congrArg (fun x : Message => x.HMAC.length) heq
      rw [copy_length, zeros_length, HMACSize] at hl
      omega

/-- C15 at a data message stamped before the epoch with a 32-byte MAC, and at
a heartbeat without a MAC. -/
theorem codec_round_trip_witness :
    (∃ buf, (toyData (-5) [1, 2, 3]).Marshal = .ok buf ∧
      UnmarshalMessage buf = .ok (toyData (-5) [1, 2, 3])) ∧
    (∃ buf decoded, (NewMessage 2000 MsgTypeHeartbeat (bytesOf "ping")).Marshal = .ok buf ∧
      UnmarshalMessage buf = .ok decoded ∧ decoded.HMAC = zeros 32 ∧
      decoded ≠ NewMessage 2000 MsgTypeHeartbeat (bytesOf "ping")) := by
  obtain ⟨buf, decoded, hm, hu, _, _, _, _, h32, _⟩ :=
    codec_round_trip (toyData (-5) [1, 2, 3]) (by decide) (by decide) (by decide)
  obtain ⟨buf2, decoded2, hm2, hu2, _, _, _, _, _, hshort⟩ :=
    codec_round_trip (NewMessage 2000 MsgTypeHeartbeat (bytesOf "ping")) (by decide)
      (by decide) (by decide)
  refine ⟨⟨buf, hm, ?_⟩, ⟨buf2, decoded2, hm2, hu2, ?_, ?_⟩⟩
  · rw [hu, h32 (by decide)]
  · exact (hshort (by decide)).1
  · exact (hshort (by decide)).2.2

end Voltage
